import Mathlib

/-!
# Monoplasma watcher: a shallow embedding of `src/monoplasmaWatcher.js`

The watcher is an object holding `this.state` (a plain record) and `this.plasma`
(the ledger, whose code lives in `src/monoplasma.js`).  Every externally visible
action of the watcher is recorded, in program order, in a trace of `Effect`s.
An `await`ed call that rejects aborts the enclosing `async` function, which is
modelled by `Outcome.andThen`.

Calls to `this.log` are not recorded: the log function receives formatted text
only and never touches the watcher's state.
-/

namespace Monoplasma

/-- An account identifier. -/
abbrev Address := Nat

/-- The value carried by a rejected promise or a thrown exception. -/
abbrev Err := String

/-- The binary exponent of the unit in the last place of the JavaScript number
nearest to `x`: how often `x` has to be halved to fall below
9007199254740992, which is 2^53.  `fuel` bounds the halvings; `x` itself is
enough. -/
def ulpExponent : Nat → Nat → Nat
  | 0, _ => 0
  | fuel + 1, x => if x < 9007199254740992 then 0 else ulpExponent fuel (x / 2) + 1

/-- The JavaScript number (IEEE 754 double) that stands for the natural number
`x`: `x` rounded to 53 significant bits, to the nearest such number and to
the even significand on a tie.  Every number below 2^53 stands for itself.
Numbers beyond the range of doubles (2^1024) are no block numbers and are
not treated apart. -/
def toJsNumber (x : Nat) : Nat :=
  let u := 2 ^ ulpExponent x x
  let q := x / u
  let r := x % u
  if 2 * r < u then q * u
  else if u < 2 * r then (q + 1) * u
  else if q % 2 = 0 then q * u
  else (q + 1) * u

/-- The `returnValues` object of a web3 event; `value` is read for `Transfer`
events and `blockNumber` for `BlockCreated` events. -/
structure ReturnValues where
  value : Nat
  blockNumber : Nat
deriving DecidableEq

/-- An event object as `playback` reads it: the tag `event`, the chain position
`blockNumber`, the web3 `returnValues` and the `addressList` of a stored
join/part record.  Fields that a given kind of event does not carry hold a
default value and are never read for that kind. -/
structure Event where
  event : String
  blockNumber : Nat
  returnValues : ReturnValues
  addressList : List Address
deriving DecidableEq

/-- The object literal the join/part handlers hand to `store.saveEvents`.  The
join handler writes no `blockNumber` field, the part handler does. -/
structure JoinPartRecord where
  blockNumber : Option (Option Nat)
  event : String
  addressList : List Address
deriving DecidableEq

/-- The record `this.state`.  A field that is `undefined` is `none`; a field that
is set holds a JavaScript number with a natural value.  The values `null`
and strings, which a hand-written state file could hold, are outside this
type. -/
structure State where
  contractAddress : Address
  tokenAddress : Option Address
  blockFreezeSeconds : Option Nat
  lastBlockNumber : Option Nat
  lastPublishedBlock : Option Nat
deriving DecidableEq

/-- A block object as returned by `store.loadBlock`; only `members` is read. -/
structure Block (μ : Type) where
  members : List μ

/-- The interface of `src/monoplasma.js` that the watcher uses.  `σ` is the
ledger object, `μ` the member objects of a stored block.  `storeBlock` is the
only asynchronous operation and may reject. -/
structure Plasma (σ μ : Type) where
  create : List μ → Nat → σ
  addRevenue : σ → Nat → σ
  addMembers : σ → List Address → σ × List Address
  removeMembers : σ → List Address → σ × List Address
  storeBlock : σ → Nat → Except Err σ

/-- The outside world as the watcher queries it: the helpers of `src/ethSync.js`,
the contracts reached through web3, and the store.  web3 hands the chain head
over as a JavaScript number, which the last field records. -/
structure Env (μ : Type) where
  throwIfSetButNotContract : Address → Except Err Unit
  token : Except Err Address
  blockFreezeSeconds : Except Err Nat
  loadBlock : Nat → Except Err (Option (Block μ))
  getBlockNumber : Except Err Nat
  getPastBlockCreated : Nat → Nat → Except Err (List Event)
  getPastTransfers : Address → Nat → Nat → Except Err (List Event)
  loadEvents : Nat → Nat → Except Err (List Event)
  mergeEventLists : List Event → List Event → List Event
  saveState : State → Except Err Unit
  getBlockNumber_number : ∀ H, getBlockNumber = .ok H → toJsNumber H = H

/-- The asynchronous calls whose promise the watcher awaits or catches. -/
inductive Call where
  | throwIfSetButNotContract (address : Address)
  | token
  | blockFreezeSeconds
  | loadBlock (ref : Nat)
  | getBlockNumber
  | getPastEvents (name : String) (fromBlock toBlock : Nat)
  | loadEvents (fromBlock toBlock : Nat)
  | storeBlock (blockNumber : Nat)
  | saveState (state : State)
deriving DecidableEq

/-- What the watcher passes to `this.error`. -/
inductive Report where
  | unexpectedEvent (e : Event)
  | reorg (e : Event)
  | raised (err : Err)
deriving DecidableEq

/-- One externally visible action of the watcher. -/
inductive Effect (μ : Type) where
  | called (c : Call) (failure : Option Err)
  | newMonoplasma (savedMembers : List μ) (blockFreezeSeconds : Nat)
  | addRevenue (value : Nat)
  | addMembers (addressList : List Address)
  | removeMembers (addressList : List Address)
  | setLastBlockNumber (n : Nat)
  | error (r : Report)
  | subscribeTransfer (recipient : Address)
  | onData
  | onChanged
  | onError
  | channelListen
  | onJoin
  | onPart
  | saveEvents (key : Option Nat) (record : JoinPartRecord)

/-- The effect is a call into the ledger that changes it. -/
def Effect.isLedgerCall {μ : Type} : Effect μ → Bool
  | .addRevenue _ => true
  | .addMembers _ => true
  | .removeMembers _ => true
  | .called (.storeBlock _) _ => true
  | _ => false

/-- The effect registers a live handler or starts a live feed. -/
def Effect.isRegistration {μ : Type} : Effect μ → Bool
  | .subscribeTransfer _ => true
  | .onData => true
  | .onChanged => true
  | .onError => true
  | .channelListen => true
  | .onJoin => true
  | .onPart => true
  | _ => false

/-- The effect is a request to persist the full state. -/
def Effect.isSaveState {μ : Type} : Effect μ → Bool
  | .called (.saveState _) _ => true
  | _ => false

/-- The result of running a piece of the watcher: the effects it produced, in
order, and either the value it returned or the error it threw. -/
structure Outcome (ε α : Type) where
  trace : List ε
  result : Except Err α

/-- Sequencing: a failed first part aborts, otherwise the second part runs. -/
def Outcome.andThen {ε α β : Type} (o : Outcome ε α) (f : α → Outcome ε β) : Outcome ε β :=
  match o.result with
  | .error e => ⟨o.trace, .error e⟩
  | .ok a => ⟨o.trace ++ (f a).trace, (f a).result⟩

/-- The failure recorded for an awaited call. -/
def failureOf {α : Type} : Except Err α → Option Err
  | .error e => some e
  | .ok _ => none

/-- An awaited call with its outcome. -/
def await {μ α : Type} (c : Call) (r : Except Err α) : Outcome (Effect μ) α :=
  ⟨[.called c (failureOf r)], r⟩

/-- The watcher object after `this.plasma` has been created. -/
structure Watcher (σ : Type) where
  state : State
  plasma : σ

/-- The body of the `for` loop of `playback` for one event (lines 102-125). -/
def playbackEvent {σ μ : Type} (P : Plasma σ μ) (p : σ) (e : Event) : Outcome (Effect μ) σ :=
  if e.event = "Transfer" then
    ⟨[.addRevenue e.returnValues.value], .ok (P.addRevenue p e.returnValues.value)⟩
  else if e.event = "BlockCreated" then
    await (.storeBlock e.returnValues.blockNumber) (P.storeBlock p e.returnValues.blockNumber)
  else if e.event = "Join" then
    ⟨[.addMembers e.addressList], .ok (P.addMembers p e.addressList).1⟩
  else if e.event = "Part" then
    ⟨[.removeMembers e.addressList], .ok (P.removeMembers p e.addressList).1⟩
  else
    ⟨[.error (.unexpectedEvent e)], .ok p⟩

/-- The `for` loop of `playback` over the merged event list (lines 101-126). -/
def playbackLoop {σ μ : Type} (P : Plasma σ μ) : List Event → σ → Outcome (Effect μ) σ
  | [], p => ⟨[], .ok p⟩
  | e :: rest, p => (playbackEvent P p e).andThen (playbackLoop P rest)

/-- The method `playback(fromBlock, toBlock)` (lines 92-127). -/
def playback {σ μ : Type} (env : Env μ) (P : Plasma σ μ) (w : Watcher σ)
    (fromBlock toBlock : Nat) : Outcome (Effect μ) (Watcher σ) :=
  (await (.getPastEvents "BlockCreated" fromBlock toBlock)
      (env.getPastBlockCreated fromBlock toBlock)).andThen fun blockCreateEvents =>
  (await (.getPastEvents "Transfer" fromBlock toBlock)
      (env.getPastTransfers w.state.contractAddress fromBlock toBlock)).andThen fun transferEvents =>
  (await (.loadEvents fromBlock toBlock) (env.loadEvents fromBlock toBlock)).andThen fun joinPartEvents =>
  let ethereumEvents := env.mergeEventLists blockCreateEvents transferEvents
  let allEvents := env.mergeEventLists ethereumEvents joinPartEvents
  (playbackLoop P allEvents w.plasma).andThen fun p =>
  ⟨[], .ok { w with plasma := p }⟩

/-- The first block of the replay window: `this.state.lastBlockNumber + 1 || 0`
(line 43).  `undefined + 1` is `NaN`, which is falsy and gives `0`; for a
number the sum is taken in JavaScript numbers, so it is the exact sum rounded
by `toJsNumber`, and it is never `0`. -/
def playbackStartingBlock (s : State) : Nat :=
  match s.lastBlockNumber with
  | none => 0
  | some n => toJsNumber (n + 1)

/-- The value of `this.state.lastPublishedBlock && await this.store.loadBlock(...)`
(line 34): the store is asked only when the reference is truthy, and the
number `0` is falsy. -/
def loadLastBlock {μ : Type} (env : Env μ) (s : State) : Outcome (Effect μ) (Option (Block μ)) :=
  match s.lastPublishedBlock with
  | none => ⟨[], .ok none⟩
  | some 0 => ⟨[], .ok none⟩
  | some (r + 1) => await (.loadBlock (r + 1)) (env.loadBlock (r + 1))

/-- The value of `lastBlock ? lastBlock.members : []` (line 35). -/
def savedMembers {μ : Type} : Option (Block μ) → List μ
  | none => []
  | some b => b.members

/-- Lines 43-48 of `start`: the replay window and the replay itself, given
the chain head `latestBlock` read on line 42. -/
def replay {σ μ : Type} (env : Env μ) (P : Plasma σ μ) (w : Watcher σ) (latestBlock : Nat) :
    Outcome (Effect μ) (Watcher σ) :=
  if playbackStartingBlock w.state ≤ latestBlock then
    (playback env P w (playbackStartingBlock w.state) latestBlock).andThen fun w1 =>
    ⟨[.setLastBlockNumber latestBlock],
      .ok { w1 with state := { w1.state with lastBlockNumber := some latestBlock } }⟩
  else
    ⟨[], .ok w⟩

/-- Lines 25-48 of `start`: validation, ledger creation and replay. -/
def startup {σ μ : Type} (env : Env μ) (P : Plasma σ μ) (s : State) :
    Outcome (Effect μ) (Watcher σ) :=
  (await (.throwIfSetButNotContract s.contractAddress)
      (env.throwIfSetButNotContract s.contractAddress)).andThen fun _ =>
  (await .token env.token).andThen fun tokenAddress =>
  (await .blockFreezeSeconds env.blockFreezeSeconds).andThen fun freeze =>
  let s1 : State := { s with tokenAddress := some tokenAddress, blockFreezeSeconds := some freeze }
  (loadLastBlock env s1).andThen fun lastBlock =>
  (⟨[.newMonoplasma (savedMembers lastBlock) freeze],
      .ok (P.create (savedMembers lastBlock) freeze)⟩ : Outcome (Effect μ) σ).andThen fun plasma =>
  (await .getBlockNumber env.getBlockNumber).andThen fun latestBlock =>
  replay env P ⟨s1, plasma⟩ latestBlock

/-- Lines 50-84 of `start`: the live subscriptions and the final `saveState`. -/
def goLive {σ μ : Type} (env : Env μ) (w : Watcher σ) : Outcome (Effect μ) (Watcher σ) :=
  (⟨[.subscribeTransfer w.state.contractAddress, .onData, .onChanged, .onError,
      .channelListen, .onJoin, .onPart], .ok ()⟩ : Outcome (Effect μ) Unit).andThen fun _ =>
  (await (.saveState w.state) (env.saveState w.state)).andThen fun _ =>
  ⟨[], .ok w⟩

/-- The method `start()` (lines 24-85). -/
def start {σ μ : Type} (env : Env μ) (P : Plasma σ μ) (s : State) :
    Outcome (Effect μ) (Watcher σ) :=
  (startup env P s).andThen (goLive env)

/-- What the live subscriptions deliver to the handlers registered by `start`. -/
inductive LiveEvent where
  | data (e : Event)
  | changed (e : Event)
  | error (err : Err)
  | join (addressList : List Address)
  | part (addressList : List Address)

/-- The handlers registered by `start` (lines 52-60 and 64-82): the effects of
one delivery and the watcher afterwards. -/
def deliver {σ μ : Type} (env : Env μ) (P : Plasma σ μ) (w : Watcher σ) :
    LiveEvent → List (Effect μ) × Watcher σ
  | .data e =>
    let st : State := { w.state with lastBlockNumber := some e.blockNumber }
    let income := e.returnValues.value
    let p := P.addRevenue w.plasma income
    let saved := env.saveState st
    ([.setLastBlockNumber e.blockNumber, .addRevenue income,
        .called (.saveState st) (failureOf saved)] ++
      (match saved with
        | .error err => [.error (.raised err)]
        | .ok _ => []),
      ⟨st, p⟩)
  | .changed e => ([.error (.reorg e)], w)
  | .error err => ([.error (.raised err)], w)
  | .join addressList =>
    let bnum := w.state.lastBlockNumber
    let r := P.addMembers w.plasma addressList
    ([.addMembers addressList,
        .saveEvents bnum { blockNumber := none, event := "Join", addressList := r.2 }],
      ⟨w.state, r.1⟩)
  | .part addressList =>
    let blockNumber := w.state.lastBlockNumber
    let r := P.removeMembers w.plasma addressList
    ([.removeMembers addressList,
        .saveEvents blockNumber
          { blockNumber := some blockNumber, event := "Part", addressList := r.2 }],
      ⟨w.state, r.1⟩)

/-- A run of the live phase: deliveries are handled one at a time, each to
completion, and each delivery is a task of its own whose `saveState` promise
has settled before the next delivery.  Where a failure report of `saveState`
falls among handlers that run in the same tick is not modelled. -/
def deliverAll {σ μ : Type} (env : Env μ) (P : Plasma σ μ) :
    Watcher σ → List LiveEvent → List (Effect μ) × Watcher σ
  | w, [] => ([], w)
  | w, ev :: rest =>
    let r := deliver env P w ev
    let r2 := deliverAll env P r.2 rest
    (r.1 ++ r2.1, r2.2)

/-! ## Concrete inputs used to run the model -/

/-- A small ledger for running the watcher on concrete inputs: the members in
order of arrival, the revenue received, and the block numbers stored.  Its
`storeBlock` rejects a block number that is already stored. -/
structure ListLedger where
  members : List Address
  revenue : Nat
  blocks : List Nat
deriving DecidableEq

/-- The operations of `ListLedger`. -/
def listPlasma : Plasma ListLedger Address where
  create := fun saved _ => ⟨saved, 0, []⟩
  addRevenue := fun p v => { p with revenue := p.revenue + v }
  addMembers := fun p l =>
    ({ p with members := p.members ++ l.filter (fun a => !p.members.contains a) },
      l.filter (fun a => !p.members.contains a))
  removeMembers := fun p l =>
    ({ p with members := p.members.filter (fun a => !l.contains a) },
      l.filter (fun a => p.members.contains a))
  storeBlock := fun p n =>
    if p.blocks.contains n then .error "block already stored"
    else .ok { p with blocks := n :: p.blocks }

/-- A `Transfer` event of `value` tokens in block `blockNumber`. -/
def transferEvent (blockNumber value : Nat) : Event :=
  ⟨"Transfer", blockNumber, ⟨value, 0⟩, []⟩

/-- A `BlockCreated` event emitted in block `blockNumber` for the published
block `ref`. -/
def blockCreatedEvent (blockNumber ref : Nat) : Event :=
  ⟨"BlockCreated", blockNumber, ⟨0, ref⟩, []⟩

/-- A stored `Join` record loaded back for block `blockNumber`. -/
def joinEvent (blockNumber : Nat) (addressList : List Address) : Event :=
  ⟨"Join", blockNumber, ⟨0, 0⟩, addressList⟩

/-- A stored `Part` record loaded back for block `blockNumber`. -/
def partEvent (blockNumber : Nat) (addressList : List Address) : Event :=
  ⟨"Part", blockNumber, ⟨0, 0⟩, addressList⟩

/-! ## The dispatch table of replay -/

/-- The action the dispatch table of `playback` names for an event: `addRevenue`
for `Transfer`, `storeBlock` for `BlockCreated`, `addMembers` for `Join`,
`removeMembers` for `Part`, and a report to the error function otherwise. -/
def prescribed {μ : Type} (e : Event) : Effect μ :=
  if e.event = "Transfer" then .addRevenue e.returnValues.value
  else if e.event = "BlockCreated" then .called (.storeBlock e.returnValues.blockNumber) none
  else if e.event = "Join" then .addMembers e.addressList
  else if e.event = "Part" then .removeMembers e.addressList
  else .error (.unexpectedEvent e)

/-- The ledger after the action the dispatch table of `playback` names for an
event: the ledger's own `addRevenue`, `storeBlock`, `addMembers` or
`removeMembers` applied to it, the rejection of `storeBlock` if it rejects,
and the unchanged ledger for an event with another tag. -/
def ledgerAfter {σ μ : Type} (P : Plasma σ μ) (p : σ) (e : Event) : Except Err σ :=
  if e.event = "Transfer" then .ok (P.addRevenue p e.returnValues.value)
  else if e.event = "BlockCreated" then P.storeBlock p e.returnValues.blockNumber
  else if e.event = "Join" then .ok (P.addMembers p e.addressList).1
  else if e.event = "Part" then .ok (P.removeMembers p e.addressList).1
  else .ok p

/-- The ledger after the named actions for a list of events, one after the
other, up to the first rejection. -/
def ledgerAfterAll {σ μ : Type} (P : Plasma σ μ) : List Event → σ → Except Err σ
  | [], p => .ok p
  | e :: rest, p =>
    match ledgerAfter P p e with
    | .ok p1 => ledgerAfterAll P rest p1
    | .error err => .error err

/-- An environment in which every query succeeds, no past event and no
checkpoint exists, and two event lists are merged by appending them. -/
def quietEnv : Env Address where
  throwIfSetButNotContract := fun _ => .ok ()
  token := .ok 77
  blockFreezeSeconds := .ok 1000
  loadBlock := fun _ => .ok none
  getBlockNumber := .ok 10
  getPastBlockCreated := fun _ _ => .ok []
  getPastTransfers := fun _ _ _ => .ok []
  loadEvents := fun _ _ => .ok []
  mergeEventLists := fun a b => a ++ b
  saveState := fun _ => .ok ()
  getBlockNumber_number := fun H h => by cases h; decide

/-! ## Classes of effects -/

/-- The effects that lines 25-48 of `start` can produce: awaited calls other
than `saveState`, the creation of the ledger, ledger calls, the watermark
update and reports of unexpected events. -/
def Effect.isStartupEffect {μ : Type} : Effect μ → Bool
  | .called (.saveState _) _ => false
  | .called _ _ => true
  | .newMonoplasma _ _ => true
  | .addRevenue _ => true
  | .addMembers _ => true
  | .removeMembers _ => true
  | .setLastBlockNumber _ => true
  | .error (.unexpectedEvent _) => true
  | _ => false

/-- The effect is an update of the watermark `this.state.lastBlockNumber`. -/
def Effect.isWatermarkUpdate {μ : Type} : Effect μ → Bool
  | .setLastBlockNumber _ => true
  | _ => false

/-- Every failed call in the trace is the error the run ended with. -/
def FailFast {μ α : Type} (o : Outcome (Effect μ) α) : Prop :=
  ∀ c e, Effect.called c (some e) ∈ o.trace → o.result = .error e

/-- The block window of a historical query (`getPastEvents` or `loadEvents`);
`none` for every other effect. -/
def Effect.queryWindow {μ : Type} : Effect μ → Option (Nat × Nat)
  | .called (.getPastEvents _ a b) _ => some (a, b)
  | .called (.loadEvents a b) _ => some (a, b)
  | _ => none

/-- The effect is the creation of the ledger object. -/
def Effect.isCreation {μ : Type} : Effect μ → Bool
  | .newMonoplasma _ _ => true
  | _ => false

/-! ## More concrete inputs -/

/-- A start state with watermark 4 and no published block. -/
def sampleState : State := ⟨1, none, none, some 4, none⟩

/-- An environment whose chain-head query fails. -/
def offlineEnv : Env Address :=
  { quietEnv with
    getBlockNumber := .error "no connection"
    getBlockNumber_number := fun _ h => by cases h }

/-- A start state whose watermark is 2^53. -/
def edgeState : State := ⟨1, none, none, some 9007199254740992, none⟩

/-- An environment whose chain head is block 2^53. -/
def edgeEnv : Env Address :=
  { quietEnv with
    getBlockNumber := .ok 9007199254740992
    getBlockNumber_number := fun H h => by cases h; decide }

/-- An environment whose store rejects every request to save the state. -/
def readOnlyEnv : Env Address := { quietEnv with saveState := fun _ => .error "disk full" }

/-- An environment whose store holds a checkpoint with members 5 and 6 for
every reference. -/
def checkpointEnv : Env Address := { quietEnv with loadBlock := fun _ => .ok (some ⟨[5, 6]⟩) }

/-! ## Event merge -/

/-- Modelled from the spec: the stream priority of the Event Merger (the code of
`mergeEventLists` in `src/ethSync.js` is not available).  Within one block
membership events come first, then deposit events, then commitment
confirmations; any other event comes last. -/
def streamPriority (e : Event) : Nat :=
  if e.event = "Join" ∨ e.event = "Part" then 0
  else if e.event = "Transfer" then 1
  else if e.event = "BlockCreated" then 2
  else 3

/-- Modelled from the spec: the order of the merge key of the Event Merger,
the pair of block number and stream priority (`src/ethSync.js` is not
available). -/
def mergeKeyLE (a b : Event) : Bool :=
  decide (a.blockNumber < b.blockNumber ∨
    (a.blockNumber = b.blockNumber ∧ streamPriority a ≤ streamPriority b))

/-- Modelled from the spec: `mergeEventLists` of `src/ethSync.js`, which is not
available, as the standard merge of two event lists by the merge key. -/
def mergeEventLists (events1 events2 : List Event) : List Event :=
  List.merge events1 events2 mergeKeyLE

/-- The order the spec asks of the applied events: by block number, and within
one block by stream priority. -/
def MergeOrdered (x y : Event) : Prop :=
  x.blockNumber ≤ y.blockNumber ∧
    (x.blockNumber = y.blockNumber → streamPriority x ≤ streamPriority y)

/-- An environment with one commitment confirmation, one deposit and one join,
all in block 5, merged as the spec describes. -/
def mergeEnv : Env Address :=
  { quietEnv with
    mergeEventLists := mergeEventLists
    getPastBlockCreated := fun _ _ => .ok [blockCreatedEvent 5 1]
    getPastTransfers := fun _ _ _ => .ok [transferEvent 5 10]
    loadEvents := fun _ _ => .ok [joinEvent 5 [7]] }

/-! ## Commitment tree and inclusion proofs

The code of the ledger (`src/monoplasma.js`) and of its hash tree is not
available; the definitions of this section follow sections 3, 4.1 and 4.2 of
the spec.  The hash function itself is a parameter: `leafHash identity earnings`
is the hash of a leaf and `nodeHash left right` the hash of two concatenated
child hashes. -/

/-- Modelled from the spec: one level of the hash tree of `src/monoplasma.js`
(not available).  Neighbours are hashed pairwise, and an odd-sized level is
completed by duplicating its last node. -/
def nextLevel {H : Type} (nodeHash : H → H → H) : List H → List H
  | [] => []
  | [a] => [nodeHash a a]
  | a :: b :: rest => nodeHash a b :: nextLevel nodeHash rest

/-- Modelled from the spec: the sibling of position `i` in a level of the hash
tree (not available in `src/`), with the flag that tells whether the sibling
stands on the left.  The last node of an odd-sized level is its own sibling. -/
def siblingAt {H : Type} : List H → Nat → Option (H × Bool)
  | [], _ => none
  | [a], 0 => some (a, false)
  | [_], _ + 1 => none
  | _ :: b :: _, 0 => some (b, false)
  | a :: _ :: _, 1 => some (a, true)
  | _ :: _ :: rest, i + 2 => siblingAt rest i

/-- Modelled from the spec: `computeRoot` of the hash tree (not available in
`src/`), level by level until one node is left; `fuel` bounds the number of
levels. -/
def computeRootAux {H : Type} (nodeHash : H → H → H) : Nat → List H → Option H
  | _, [] => none
  | _, [a] => some a
  | 0, _ :: _ :: _ => none
  | fuel + 1, a :: b :: rest =>
    computeRootAux nodeHash fuel (nextLevel nodeHash (a :: b :: rest))

/-- Modelled from the spec: the commitment digest of a leaf list (the hash tree
is not available in `src/`).  The number of leaves is enough fuel. -/
def computeRoot {H : Type} (nodeHash : H → H → H) (leaves : List H) : Option H :=
  computeRootAux nodeHash leaves.length leaves

/-- Modelled from the spec: `computeProof` of the hash tree (not available in
`src/`): the sibling hash and its side at each level from the leaf at
position `i` to the root. -/
def computeProofAux {H : Type} (nodeHash : H → H → H) : Nat → List H → Nat → List (H × Bool)
  | _, [], _ => []
  | _, [_], _ => []
  | 0, _ :: _ :: _, _ => []
  | fuel + 1, a :: b :: rest, i =>
    match siblingAt (a :: b :: rest) i with
    | none => []
    | some step =>
      step :: computeProofAux nodeHash fuel (nextLevel nodeHash (a :: b :: rest)) (i / 2)

/-- Modelled from the spec: the inclusion proof of the leaf at position `i`
(the hash tree is not available in `src/`). -/
def computeProof {H : Type} (nodeHash : H → H → H) (leaves : List H) (i : Nat) :
    List (H × Bool) :=
  computeProofAux nodeHash leaves.length leaves i

/-- Modelled from the spec: one step of proof verification (not available in
`src/`): the running hash is concatenated with the sibling hash on the side
the flag names, and hashed. -/
def combine {H : Type} (nodeHash : H → H → H) (acc : H) (step : H × Bool) : H :=
  if step.2 then nodeHash step.1 acc else nodeHash acc step.1

/-- Modelled from the spec: the digest recomputed from a leaf hash and an
inclusion proof (the verifier is not available in `src/`). -/
def recompute {H : Type} (nodeHash : H → H → H) (leaf : H) (proof : List (H × Bool)) : H :=
  proof.foldl (combine nodeHash) leaf

/-- Modelled from the spec: `verify(leafHash, proof, expectedRoot)` (the
verifier is not available in `src/`). -/
def verify {H : Type} [DecidableEq H] (nodeHash : H → H → H) (leaf : H)
    (proof : List (H × Bool)) (expectedRoot : H) : Bool :=
  decide (recompute nodeHash leaf proof = expectedRoot)

/-- The sibling hashes met on the way up from position `i` through `k` levels
of the tree over the level `l`. -/
def pathHashes {H : Type} (nodeHash : H → H → H) : Nat → List H → Nat → List H
  | 0, _, _ => []
  | k + 1, l, i =>
    match siblingAt l i with
    | none => []
    | some step => step.1 :: pathHashes nodeHash k (nextLevel nodeHash l) (i / 2)

/-! ## The revenue ledger (modelled from the spec) -/

/-- Modelled from the spec: a Member record of the ledger (`src/monoplasma.js`
is not available): identity, cumulative earnings and active flag. -/
structure Member where
  address : Address
  earnings : Nat
  active : Bool
deriving DecidableEq

/-- Modelled from the spec: the Ledger state (`src/monoplasma.js` is not
available): the member records in canonical order, by identity, and the
undistributed remainder. -/
structure Ledger where
  members : List Member
  remainder : Nat

/-- Modelled from the spec: the ledger `new Monoplasma()` of the test, with no
member and nothing received (`src/monoplasma.js` is not available). -/
def Ledger.empty : Ledger := ⟨[], 0⟩

/-- Modelled from the spec: `addMember` (`src/monoplasma.js` is not available).
An absent identity becomes an active member with no earnings, at its place
in the canonical order; a known identity becomes active. -/
def addMember (L : Ledger) (a : Address) : Ledger :=
  if a ∈ L.members.map (fun m => m.address) then
    { L with members :=
        L.members.map (fun m => if m.address = a then { m with active := true } else m) }
  else
    { L with members :=
        L.members.orderedInsert (fun x y => x.address ≤ y.address) ⟨a, 0, true⟩ }

/-- Modelled from the spec: `addRevenue` (`src/monoplasma.js` is not available).
The amount joins the remainder, the total is divided by the number of active
members with integer division, every active member earns the quotient and
the rest is carried forward; without active members all stays in the
remainder. -/
def addRevenue (L : Ledger) (amount : Nat) : Ledger :=
  let total := L.remainder + amount
  let n := (L.members.filter (fun m => m.active)).length
  if n = 0 then { L with remainder := total }
  else
    { members := L.members.map
        (fun m => if m.active then { m with earnings := m.earnings + total / n } else m)
      remainder := total % n }

/-- Modelled from the spec: `getMember` (`src/monoplasma.js` is not available). -/
def getMember (L : Ledger) (a : Address) : Option Member :=
  L.members.find? (fun m => m.address = a)

/-- Modelled from the spec: the leaves of the commitment tree, one per member
in canonical order, each the hash of identity and earnings
(`src/monoplasma.js` is not available).  Parted members stay in the committed
set; in a ledger built by `addMember` and `addRevenue` every member is active. -/
def leaves {H : Type} (leafHash : Address → Nat → H) (L : Ledger) : List H :=
  L.members.map (fun m => leafHash m.address m.earnings)

/-- Modelled from the spec: `getRootHash` (`src/monoplasma.js` is not
available); there is no digest of an empty member set. -/
def getRootHash {H : Type} (leafHash : Address → Nat → H) (nodeHash : H → H → H)
    (L : Ledger) : Option H :=
  computeRoot nodeHash (leaves leafHash L)

/-- Modelled from the spec: `getProof` against the live state
(`src/monoplasma.js` is not available); it fails with `NotAMemberError` for an
identity that is not in the member set. -/
def getProof {H : Type} (leafHash : Address → Nat → H) (nodeHash : H → H → H)
    (L : Ledger) (a : Address) : Except Err (List (H × Bool)) :=
  if a ∈ L.members.map (fun m => m.address) then
    .ok (computeProof nodeHash (leaves leafHash L)
      ((L.members.map (fun m => m.address)).indexOf a))
  else .error "NotAMemberError"

/-- A call that builds up the ledger in the test. -/
inductive LedgerOp where
  | addMember (a : Address)
  | addRevenue (amount : Nat)

/-- The ledger after one call. -/
def applyOp (L : Ledger) : LedgerOp → Ledger
  | .addMember a => addMember L a
  | .addRevenue amount => addRevenue L amount

/-- The ledger built from the empty one by a sequence of calls. -/
def build (ops : List LedgerOp) : Ledger :=
  ops.foldl applyOp Ledger.empty

/-- A collision-free leaf hash on numbers, for running the model: twice the
pairing of identity and earnings. -/
def pairLeafHash (a e : Nat) : Nat := 2 * Nat.pair a e

/-- A collision-free node hash on numbers, for running the model: twice the
pairing of the two children, plus one. -/
def pairNodeHash (x y : Nat) : Nat := 2 * Nat.pair x y + 1

/-- The calls of the test, with a third member: three members, two deposits of
1000. -/
def sampleOps : List LedgerOp :=
  [.addMember 3, .addMember 1, .addMember 2, .addRevenue 1000, .addRevenue 1000]

/-! ## Theorems: JavaScript numbers -/

theorem ulpExponent_of_lt (fuel x : Nat) (h : x < 9007199254740992) :
    ulpExponent fuel x = 0 := by
  cases fuel with
  | zero => rfl
  | succ f => simp [ulpExponent, h]

/-- A number below 2^53 is a JavaScript number. -/
theorem toJsNumber_of_lt (x : Nat) (h : x < 9007199254740992) : toJsNumber x = x := by
  simp [toJsNumber, ulpExponent_of_lt x x h, Nat.mod_one]

/-- Adding one to a number below 2^53 is exact. -/
theorem toJsNumber_succ_of_lt (n : Nat) (h : n < 9007199254740992) :
    toJsNumber (n + 1) = n + 1 := by
  by_cases h1 : n + 1 < 9007199254740992
  · exact toJsNumber_of_lt _ h1
  · have : n = 9007199254740991 := by omega
    subst this
    decide

theorem ulpExponent_fuel :
    ∀ (f g x : Nat), x ≤ f → x ≤ g → ulpExponent f x = ulpExponent g x := by
  intro f
  induction f with
  | zero =>
    intro g x hf _
    have : x = 0 := by omega
    subst this
    rw [ulpExponent_of_lt _ _ (by norm_num), ulpExponent_of_lt _ _ (by norm_num)]
  | succ f ih =>
    intro g x hf hg
    by_cases hx : x < 9007199254740992
    · rw [ulpExponent_of_lt _ _ hx, ulpExponent_of_lt _ _ hx]
    · cases g with
      | zero =>
        exfalso
        have : x = 0 := by omega
        subst this
        exact hx (by norm_num)
      | succ g =>
        simp only [ulpExponent, hx, if_false]
        rw [ih g (x / 2) (by omega) (by omega)]

theorem ulpExponent_mono :
    ∀ (f x y : Nat), x ≤ y → ulpExponent f x ≤ ulpExponent f y := by
  intro f
  induction f with
  | zero => intro x y _; simp [ulpExponent]
  | succ f ih =>
    intro x y hxy
    by_cases hy : y < 9007199254740992
    · rw [ulpExponent_of_lt _ _ hy, ulpExponent_of_lt _ _ (by omega)]
    · by_cases hx : x < 9007199254740992
      · rw [ulpExponent_of_lt _ _ hx]; exact Nat.zero_le _
      · simp only [ulpExponent, hx, hy, if_false]
        have := ih (x / 2) (y / 2) (Nat.div_le_div_right hxy)
        omega

/-- A JavaScript number is a multiple of its unit in the last place. -/
theorem toJsNumber_fixed (H : Nat) (h : toJsNumber H = H) : 2 ^ ulpExponent H H ∣ H := by
  apply Nat.dvd_of_mod_eq_zero
  by_contra hr
  have hu : 0 < 2 ^ ulpExponent H H := Nat.two_pow_pos _
  have hlt := Nat.mod_lt H hu
  have hdm := Nat.div_add_mod H (2 ^ ulpExponent H H)
  have hs : (H / 2 ^ ulpExponent H H + 1) * 2 ^ ulpExponent H H
      = H / 2 ^ ulpExponent H H * 2 ^ ulpExponent H H + 2 ^ ulpExponent H H := Nat.succ_mul _ _
  have hc : 2 ^ ulpExponent H H * (H / 2 ^ ulpExponent H H)
      = H / 2 ^ ulpExponent H H * 2 ^ ulpExponent H H := Nat.mul_comm _ _
  unfold toJsNumber at h
  simp only at h
  split_ifs at h <;> omega

/-- Rounding never carries a number past a JavaScript number above it. -/
theorem toJsNumber_le (x H : Nat) (hx : x ≤ H) (hH : toJsNumber H = H) :
    toJsNumber x ≤ H := by
  have hdiv : 2 ^ ulpExponent x x ∣ H := by
    refine dvd_trans (pow_dvd_pow 2 ?_) (toJsNumber_fixed H hH)
    calc ulpExponent x x = ulpExponent H x := ulpExponent_fuel x H x (le_refl _) hx
      _ ≤ ulpExponent H H := ulpExponent_mono H x H hx
  obtain ⟨m, hm⟩ := hdiv
  have hu : 0 < 2 ^ ulpExponent x x := Nat.two_pow_pos _
  have hlt := Nat.mod_lt x hu
  have hdm := Nat.div_add_mod x (2 ^ ulpExponent x x)
  have hs : (x / 2 ^ ulpExponent x x + 1) * 2 ^ ulpExponent x x
      = x / 2 ^ ulpExponent x x * 2 ^ ulpExponent x x + 2 ^ ulpExponent x x := Nat.succ_mul _ _
  have hc : 2 ^ ulpExponent x x * (x / 2 ^ ulpExponent x x)
      = x / 2 ^ ulpExponent x x * 2 ^ ulpExponent x x := Nat.mul_comm _ _
  by_cases hr : x % 2 ^ ulpExponent x x = 0
  · have : toJsNumber x = x := by
      unfold toJsNumber
      simp only
      split_ifs <;> omega
    omega
  · have hq : x / 2 ^ ulpExponent x x < m := by
      refine Nat.lt_of_mul_lt_mul_left (a := 2 ^ ulpExponent x x) ?_
      omega
    have hle : 2 ^ ulpExponent x x * (x / 2 ^ ulpExponent x x + 1)
        ≤ 2 ^ ulpExponent x x * m := Nat.mul_le_mul_left _ hq
    have hc2 : 2 ^ ulpExponent x x * (x / 2 ^ ulpExponent x x + 1)
        = (x / 2 ^ ulpExponent x x + 1) * 2 ^ ulpExponent x x := Nat.mul_comm _ _
    have hub : toJsNumber x ≤ (x / 2 ^ ulpExponent x x + 1) * 2 ^ ulpExponent x x := by
      unfold toJsNumber
      simp only
      split_ifs <;> omega
    omega

/-! ## Theorems: replay dispatch -/

theorem andThen_trace_ok {ε α β : Type} (o : Outcome ε α) (f : α → Outcome ε β) (a : α)
    (h : o.result = .ok a) : (o.andThen f).trace = o.trace ++ (f a).trace := by
  simp [Outcome.andThen, h]

theorem andThen_result_ok {ε α β : Type} (o : Outcome ε α) (f : α → Outcome ε β) (a : α)
    (h : o.result = .ok a) : (o.andThen f).result = (f a).result := by
  simp [Outcome.andThen, h]

theorem andThen_trace_error {ε α β : Type} (o : Outcome ε α) (f : α → Outcome ε β) (e : Err)
    (h : o.result = .error e) : (o.andThen f).trace = o.trace := by
  simp [Outcome.andThen, h]

theorem andThen_result_error {ε α β : Type} (o : Outcome ε α) (f : α → Outcome ε β) (e : Err)
    (h : o.result = .error e) : (o.andThen f).result = .error e := by
  simp [Outcome.andThen, h]

theorem playbackEvent_ok {σ μ : Type} (P : Plasma σ μ) (p p1 : σ) (e : Event)
    (h : (playbackEvent P p e).result = .ok p1) :
    (playbackEvent P p e).trace = [prescribed e] := by
  unfold playbackEvent prescribed at *
  split_ifs at h ⊢ <;> simp_all [await, failureOf]

theorem playbackEvent_error {σ μ : Type} (P : Plasma σ μ) (p : σ) (e : Event) (err : Err)
    (h : (playbackEvent P p e).result = .error err) :
    e.event = "BlockCreated" ∧
      (playbackEvent P p e).trace = [.called (.storeBlock e.returnValues.blockNumber) (some err)] := by
  unfold playbackEvent at *
  split_ifs at h ⊢
  all_goals simp_all [await, failureOf]

theorem playbackEvent_result {σ μ : Type} (P : Plasma σ μ) (p : σ) (e : Event) :
    (playbackEvent P p e : Outcome (Effect μ) σ).result = ledgerAfter P p e := by
  unfold playbackEvent ledgerAfter
  split_ifs <;> simp [await]

/-- C1 (as amended): for every merged event list, the ledger a replay ends
with is the ledger's own `addRevenue`, `storeBlock`, `addMembers` and
`removeMembers` applied in list order, with the arguments of the events, and
the replay throws exactly when one of these `storeBlock` calls rejects; a
replay that completes has made exactly the prescribed action for each
event, in list order (one ledger call per `Transfer`, `BlockCreated`, `Join`
or `Part` event, one report to the error function per event with another
tag); a replay that throws has done so at a `BlockCreated` event whose
`storeBlock` call rejected, after the prescribed actions of the events
before it, and has made no call for the events after it. -/
theorem playback_dispatch {σ μ : Type} (P : Plasma σ μ) (events : List Event) (p : σ) :
    (playbackLoop P events p : Outcome (Effect μ) σ).result = ledgerAfterAll P events p ∧
    (∀ p1, (playbackLoop P events p).result = .ok p1 →
      (playbackLoop P events p).trace = events.map (prescribed : Event → Effect μ)) ∧
    (∀ err, (playbackLoop P events p).result = .error err →
      ∃ before e after, events = before ++ e :: after ∧ e.event = "BlockCreated" ∧
        (playbackLoop P events p).trace =
          before.map (prescribed : Event → Effect μ) ++
            [.called (.storeBlock e.returnValues.blockNumber) (some err)]) := by
  induction events generalizing p with
  | nil =>
    refine ⟨rfl, fun p1 _ => rfl, fun err h => ?_⟩
    simp [playbackLoop] at h
  | cons e rest ih =>
    cases hres : (playbackEvent P p e).result with
    | error err0 =>
      obtain ⟨htag, htr⟩ := playbackEvent_error P p e err0 hres
      have hled : ledgerAfter P p e = .error err0 := by
        rw [← playbackEvent_result (μ := μ)]
        exact hres
      refine ⟨?_, fun p1 h => ?_, fun err h => ?_⟩
      · rw [playbackLoop, andThen_result_error _ _ err0 hres, ledgerAfterAll, hled]
      · rw [playbackLoop, andThen_result_error _ _ err0 hres] at h
        cases h
      · rw [playbackLoop, andThen_result_error _ _ err0 hres] at h
        cases h
        refine ⟨[], e, rest, rfl, htag, ?_⟩
        rw [playbackLoop, andThen_trace_error _ _ err0 hres, htr]
        rfl
    | ok p0 =>
      have htr := playbackEvent_ok P p p0 e hres
      have hled : ledgerAfter P p e = .ok p0 := by
        rw [← playbackEvent_result (μ := μ)]
        exact hres
      obtain ⟨ihres, ihok, iherr⟩ := ih p0
      refine ⟨?_, fun p1 h => ?_, fun err h => ?_⟩
      · rw [playbackLoop, andThen_result_ok _ _ p0 hres, ledgerAfterAll, hled]
        exact ihres
      · rw [playbackLoop, andThen_result_ok _ _ p0 hres] at h
        rw [playbackLoop, andThen_trace_ok _ _ p0 hres, htr, ihok p1 h]
        rfl
      · rw [playbackLoop, andThen_result_ok _ _ p0 hres] at h
        obtain ⟨before, e1, after, hsplit, htag, htrace⟩ := iherr err h
        refine ⟨e :: before, e1, after, by rw [hsplit]; rfl, htag, ?_⟩
        rw [playbackLoop, andThen_trace_ok _ _ p0 hres, htr, htrace]
        rfl

/-- C1 (as stated) fails: when the `storeBlock` call of a `BlockCreated` event
rejects, replay stops there and the `Transfer` event after it in the merged
list gets no `addRevenue` call. -/
theorem playback_dispatch_counterexample :
    (playbackLoop listPlasma [blockCreatedEvent 3 1, blockCreatedEvent 3 1, transferEvent 4 5]
        (listPlasma.create [] 0)).trace
      = [.called (.storeBlock 1) none, .called (.storeBlock 1) (some "block already stored")] ∧
    (Effect.addRevenue 5 : Effect Address) ∉
      (playbackLoop listPlasma [blockCreatedEvent 3 1, blockCreatedEvent 3 1, transferEvent 4 5]
        (listPlasma.create [] 0)).trace := by
  have h : (playbackLoop listPlasma
        [blockCreatedEvent 3 1, blockCreatedEvent 3 1, transferEvent 4 5]
        (listPlasma.create [] 0)).trace
      = [.called (.storeBlock 1) none, .called (.storeBlock 1) (some "block already stored")] := by
    simp [playbackLoop, playbackEvent, Outcome.andThen, await, failureOf, listPlasma,
      blockCreatedEvent, transferEvent]
  refine ⟨h, ?_⟩
  rw [h]
  simp

/-! ## Theorems: live handlers -/

/-- C6: for every live deposit event the handler sets the watermark to the
event's block, calls `addRevenue` once with the transferred value, then asks
the store to save the full state (with the new watermark); when that request
fails the error goes to the error function, and the watermark and the ledger
are as after a successful save.  The handler returns normally in both cases. -/
theorem deposit_handler {σ μ : Type} (env : Env μ) (P : Plasma σ μ) (w : Watcher σ) (e : Event) :
    (deliver env P w (.data e)).2.state = { w.state with lastBlockNumber := some e.blockNumber } ∧
    (deliver env P w (.data e)).2.plasma = P.addRevenue w.plasma e.returnValues.value ∧
    (env.saveState { w.state with lastBlockNumber := some e.blockNumber } = .ok () →
      (deliver env P w (.data e)).1 =
        [.setLastBlockNumber e.blockNumber, .addRevenue e.returnValues.value,
          .called (.saveState { w.state with lastBlockNumber := some e.blockNumber }) none]) ∧
    (∀ err, env.saveState { w.state with lastBlockNumber := some e.blockNumber } = .error err →
      (deliver env P w (.data e)).1 =
        [.setLastBlockNumber e.blockNumber, .addRevenue e.returnValues.value,
          .called (.saveState { w.state with lastBlockNumber := some e.blockNumber }) (some err),
          .error (.raised err)]) := by
  refine ⟨rfl, rfl, fun h => ?_, fun err h => ?_⟩
  · simp [deliver, h, failureOf]
  · simp [deliver, h, failureOf]

/-- C7: for every join (part) batch the handler calls `addMembers`
(`removeMembers`) once with the batch, leaves the state and so the watermark
unchanged, and saves one record under the current watermark, tagged "Join"
("Part") and carrying the list the ledger call returned; replay dispatches
any event with that tag and address list to `addMembers` (`removeMembers`)
with that list: it records that call and goes on with the ledger that the
ledger's own `addMembers` (`removeMembers`) returns for that list. -/
theorem join_part_handler {σ μ : Type} (env : Env μ) (P : Plasma σ μ) (w : Watcher σ)
    (batch : List Address) :
    (deliver env P w (.join batch)).1 =
      [.addMembers batch,
        .saveEvents w.state.lastBlockNumber
          ⟨none, "Join", (P.addMembers w.plasma batch).2⟩] ∧
    (deliver env P w (.join batch)).2 = ⟨w.state, (P.addMembers w.plasma batch).1⟩ ∧
    (deliver env P w (.part batch)).1 =
      [.removeMembers batch,
        .saveEvents w.state.lastBlockNumber
          ⟨some w.state.lastBlockNumber, "Part", (P.removeMembers w.plasma batch).2⟩] ∧
    (deliver env P w (.part batch)).2 = ⟨w.state, (P.removeMembers w.plasma batch).1⟩ ∧
    (∀ (ev : Event) (p : σ), ev.event = "Join" →
      ev.addressList = (P.addMembers w.plasma batch).2 →
      (playbackEvent P p ev).trace = [.addMembers (P.addMembers w.plasma batch).2] ∧
      (playbackEvent P p ev : Outcome (Effect μ) σ).result =
        .ok (P.addMembers p (P.addMembers w.plasma batch).2).1) ∧
    (∀ (ev : Event) (p : σ), ev.event = "Part" →
      ev.addressList = (P.removeMembers w.plasma batch).2 →
      (playbackEvent P p ev).trace = [.removeMembers (P.removeMembers w.plasma batch).2] ∧
      (playbackEvent P p ev : Outcome (Effect μ) σ).result =
        .ok (P.removeMembers p (P.removeMembers w.plasma batch).2).1) := by
  refine ⟨rfl, rfl, rfl, rfl, fun ev p h1 h2 => ?_, fun ev p h1 h2 => ?_⟩
  · simp [playbackEvent, h1, h2]
  · simp [playbackEvent, h1, h2]

/-- C4 (as amended): a retraction notification makes the watcher report the
retracted event to the error function and nothing else: the watcher's state
and ledger are unchanged, and every event delivered afterwards is handled
exactly as if the notification had not arrived. -/
theorem reorg_handler {σ μ : Type} (env : Env μ) (P : Plasma σ μ) (w : Watcher σ) (e : Event)
    (later : List LiveEvent) :
    deliver env P w (.changed e) = ([.error (.reorg e)], w) ∧
    deliverAll env P w (.changed e :: later) =
      (.error (.reorg e) :: (deliverAll env P w later).1, (deliverAll env P w later).2) := by
  refine ⟨rfl, ?_⟩
  simp [deliverAll, deliver]

/-- C4 (as stated) fails: a deposit delivered after a retraction notification
still reaches the ledger through `addRevenue` and moves the watermark. -/
theorem reorg_handler_counterexample :
    (deliverAll quietEnv listPlasma ⟨⟨1, some 77, some 1000, some 10, none⟩, ⟨[8], 0, []⟩⟩
        [.changed (transferEvent 10 5), .data (transferEvent 11 7)]).1
      = [.error (.reorg (transferEvent 10 5)), .setLastBlockNumber 11, .addRevenue 7,
          .called (.saveState ⟨1, some 77, some 1000, some 11, none⟩) none] ∧
    (deliverAll quietEnv listPlasma ⟨⟨1, some 77, some 1000, some 10, none⟩, ⟨[8], 0, []⟩⟩
        [.changed (transferEvent 10 5), .data (transferEvent 11 7)]).2.plasma.revenue = 7 := by
  constructor
  · simp [deliverAll, deliver, quietEnv, failureOf, transferEvent]
  · simp [deliverAll, deliver, listPlasma, transferEvent]

/-! ## Theorems: startup -/

theorem mem_andThen_trace {ε α β : Type} (o : Outcome ε α) (f : α → Outcome ε β) (x : ε)
    (h : x ∈ (o.andThen f).trace) :
    x ∈ o.trace ∨ ∃ a, o.result = .ok a ∧ x ∈ (f a).trace := by
  cases hres : o.result with
  | error e =>
    rw [andThen_trace_error _ _ e hres] at h
    exact Or.inl h
  | ok a =>
    rw [andThen_trace_ok _ _ a hres] at h
    rcases List.mem_append.mp h with h1 | h2
    · exact Or.inl h1
    · exact Or.inr ⟨a, rfl, h2⟩

theorem all_andThen {ε α β : Type} (Q : ε → Prop) (o : Outcome ε α) (f : α → Outcome ε β)
    (ho : ∀ x ∈ o.trace, Q x) (hf : ∀ a, o.result = .ok a → ∀ x ∈ (f a).trace, Q x) :
    ∀ x ∈ (o.andThen f).trace, Q x := by
  intro x hx
  rcases mem_andThen_trace o f x hx with h | ⟨a, ha, h⟩
  · exact ho x h
  · exact hf a ha x h

theorem failFast_andThen {μ α β : Type} (o : Outcome (Effect μ) α)
    (f : α → Outcome (Effect μ) β) (ho : FailFast o)
    (hf : ∀ a, o.result = .ok a → FailFast (f a)) : FailFast (o.andThen f) := by
  intro c e hmem
  cases hres : o.result with
  | error e0 =>
    rw [andThen_trace_error _ _ e0 hres] at hmem
    have := ho c e hmem
    exact andThen_result_error _ _ e this
  | ok a =>
    rw [andThen_trace_ok _ _ a hres] at hmem
    rw [andThen_result_ok _ _ a hres]
    rcases List.mem_append.mp hmem with h1 | h2
    · have := ho c e h1
      rw [hres] at this
      cases this
    · exact hf a hres c e h2

theorem failFast_await {μ α : Type} (c : Call) (r : Except Err α) :
    FailFast (await c r : Outcome (Effect μ) α) := by
  intro c1 e hmem
  cases r with
  | error e0 => simp [await, failureOf] at hmem ⊢; rw [hmem.2]
  | ok a => simp [await, failureOf] at hmem

theorem playbackEvent_failFast {σ μ : Type} (P : Plasma σ μ) (p : σ) (e : Event) :
    FailFast (playbackEvent P p e) := by
  unfold playbackEvent
  split_ifs
  · intro c err h; simp at h
  · exact failFast_await _ _
  · intro c err h; simp at h
  · intro c err h; simp at h
  · intro c err h; simp at h

theorem playbackLoop_failFast {σ μ : Type} (P : Plasma σ μ) (events : List Event) (p : σ) :
    FailFast (playbackLoop P events p) := by
  induction events generalizing p with
  | nil => intro c err h; simp [playbackLoop] at h
  | cons e rest ih =>
    rw [playbackLoop]
    exact failFast_andThen _ _ (playbackEvent_failFast P p e) (fun a _ => ih a)

theorem playbackEvent_all {σ μ : Type} (P : Plasma σ μ) (p : σ) (e : Event) :
    ∀ x ∈ (playbackEvent P p e).trace,
      x.isLedgerCall = true ∨ x = Effect.error (.unexpectedEvent e) := by
  unfold playbackEvent
  split_ifs <;> simp [await, Effect.isLedgerCall]

theorem playbackLoop_all {σ μ : Type} (P : Plasma σ μ) (events : List Event) (p : σ) :
    ∀ x ∈ (playbackLoop P events p).trace,
      x.isLedgerCall = true ∨ ∃ e, x = Effect.error (.unexpectedEvent e) := by
  induction events generalizing p with
  | nil => intro x h; simp [playbackLoop] at h
  | cons e rest ih =>
    rw [playbackLoop]
    refine all_andThen _ _ _ (fun x hx => ?_) (fun a _ => ih a)
    rcases playbackEvent_all P p e x hx with h | h
    · exact Or.inl h
    · exact Or.inr ⟨e, h⟩

theorem playback_failFast {σ μ : Type} (env : Env μ) (P : Plasma σ μ) (w : Watcher σ)
    (a b : Nat) : FailFast (playback env P w a b) := by
  unfold playback
  refine failFast_andThen _ _ (failFast_await _ _) (fun _ _ => ?_)
  refine failFast_andThen _ _ (failFast_await _ _) (fun _ _ => ?_)
  refine failFast_andThen _ _ (failFast_await _ _) (fun _ _ => ?_)
  refine failFast_andThen _ _ (playbackLoop_failFast _ _ _) (fun _ _ => ?_)
  intro c e h
  simp at h

theorem replay_failFast {σ μ : Type} (env : Env μ) (P : Plasma σ μ) (w : Watcher σ)
    (H : Nat) : FailFast (replay env P w H) := by
  unfold replay
  split_ifs
  · refine failFast_andThen _ _ (playback_failFast _ _ _ _ _) (fun _ _ => ?_)
    intro c e h
    simp at h
  · intro c e h
    simp at h

theorem loadLastBlock_failFast {μ : Type} (env : Env μ) (s : State) :
    FailFast (loadLastBlock env s) := by
  unfold loadLastBlock
  split
  · intro c e h; simp at h
  · intro c e h; simp at h
  · exact failFast_await _ _

theorem startup_failFast {σ μ : Type} (env : Env μ) (P : Plasma σ μ) (s : State) :
    FailFast (startup env P s) := by
  unfold startup
  refine failFast_andThen _ _ (failFast_await _ _) (fun _ _ => ?_)
  refine failFast_andThen _ _ (failFast_await _ _) (fun _ _ => ?_)
  refine failFast_andThen _ _ (failFast_await _ _) (fun _ _ => ?_)
  refine failFast_andThen _ _ (loadLastBlock_failFast _ _) (fun _ _ => ?_)
  refine failFast_andThen _ _ (fun c e h => by simp at h) (fun _ _ => ?_)
  refine failFast_andThen _ _ (failFast_await _ _) (fun _ _ => ?_)
  exact replay_failFast _ _ _ _

theorem playback_all {σ μ : Type} (env : Env μ) (P : Plasma σ μ) (w : Watcher σ)
    (a b : Nat) : ∀ x ∈ (playback env P w a b).trace, x.isStartupEffect = true := by
  unfold playback
  refine all_andThen _ _ _ (by simp [await, Effect.isStartupEffect]) (fun _ _ => ?_)
  refine all_andThen _ _ _ (by simp [await, Effect.isStartupEffect]) (fun _ _ => ?_)
  refine all_andThen _ _ _ (by simp [await, Effect.isStartupEffect]) (fun _ _ => ?_)
  refine all_andThen _ _ _ (fun x hx => ?_) (fun _ _ => by simp)
  rcases playbackLoop_all _ _ _ x hx with h | ⟨e, h⟩
  · cases x <;> simp_all [Effect.isLedgerCall, Effect.isStartupEffect]
    split at h <;> simp_all
  · rw [h]; rfl

theorem replay_all {σ μ : Type} (env : Env μ) (P : Plasma σ μ) (w : Watcher σ)
    (H : Nat) : ∀ x ∈ (replay env P w H).trace, x.isStartupEffect = true := by
  unfold replay
  split_ifs
  · exact all_andThen _ _ _ (playback_all _ _ _ _ _)
      (fun _ _ => by simp [Effect.isStartupEffect])
  · simp

theorem loadLastBlock_all {μ : Type} (env : Env μ) (s : State) :
    ∀ x ∈ (loadLastBlock env s).trace, ∃ r fl, r ≠ 0 ∧ x = Effect.called (.loadBlock r) fl := by
  unfold loadLastBlock
  split <;> simp [await]

theorem startup_all {σ μ : Type} (env : Env μ) (P : Plasma σ μ) (s : State) :
    ∀ x ∈ (startup env P s).trace, x.isStartupEffect = true := by
  unfold startup
  refine all_andThen _ _ _ (by simp [await, Effect.isStartupEffect]) (fun _ _ => ?_)
  refine all_andThen _ _ _ (by simp [await, Effect.isStartupEffect]) (fun _ _ => ?_)
  refine all_andThen _ _ _ (by simp [await, Effect.isStartupEffect]) (fun _ _ => ?_)
  refine all_andThen _ _ _ (fun x hx => ?_) (fun _ _ => ?_)
  · obtain ⟨r, fl, _, h⟩ := loadLastBlock_all _ _ x hx
    rw [h]; rfl
  refine all_andThen _ _ _ (by simp [Effect.isStartupEffect]) (fun _ _ => ?_)
  refine all_andThen _ _ _ (by simp [await, Effect.isStartupEffect]) (fun _ _ => ?_)
  exact replay_all _ _ _ _

theorem goLive_trace {σ μ : Type} (env : Env μ) (w : Watcher σ) :
    (goLive env w : Outcome (Effect μ) (Watcher σ)).trace =
      [.subscribeTransfer w.state.contractAddress, .onData, .onChanged, .onError,
        .channelListen, .onJoin, .onPart,
        .called (.saveState w.state) (failureOf (env.saveState w.state))] := by
  cases h : env.saveState w.state <;> simp [goLive, Outcome.andThen, await, h, failureOf]

theorem goLive_result {σ μ : Type} (env : Env μ) (w w1 : Watcher σ)
    (h : (goLive env w : Outcome (Effect μ) (Watcher σ)).result = .ok w1) : w1 = w := by
  cases hs : env.saveState w.state <;>
    simp [goLive, Outcome.andThen, await, hs] at h
  exact h.symm

theorem andThen_result_ok_iff {ε α β : Type} (o : Outcome ε α) (f : α → Outcome ε β) (b : β) :
    (o.andThen f).result = .ok b ↔ ∃ a, o.result = .ok a ∧ (f a).result = .ok b := by
  cases hres : o.result with
  | error e => simp [Outcome.andThen, hres]
  | ok a => simp [Outcome.andThen, hres]

theorem playback_state {σ μ : Type} (env : Env μ) (P : Plasma σ μ) (w w1 : Watcher σ)
    (a b : Nat) (h : (playback env P w a b).result = .ok w1) : w1.state = w.state := by
  unfold playback at h
  simp only [andThen_result_ok_iff] at h
  obtain ⟨_, _, _, _, _, _, _, _, h⟩ := h
  cases h
  rfl

theorem replay_state {σ μ : Type} (env : Env μ) (P : Plasma σ μ) (w w1 : Watcher σ)
    (H : Nat) (h : (replay env P w H).result = .ok w1) :
    w1.state = { w.state with lastBlockNumber :=
      if playbackStartingBlock w.state ≤ H then some H else w.state.lastBlockNumber } := by
  unfold replay at h
  split_ifs at h with hle
  · simp only [andThen_result_ok_iff] at h
    obtain ⟨w0, h0, h⟩ := h
    cases h
    simp [playback_state env P w w0 _ _ h0, hle]
  · cases h
    simp [hle]

theorem startup_state {σ μ : Type} (env : Env μ) (P : Plasma σ μ) (s : State) (w : Watcher σ)
    (h : (startup env P s).result = .ok w) :
    ∃ t f H, env.token = .ok t ∧ env.blockFreezeSeconds = .ok f ∧ env.getBlockNumber = .ok H ∧
      w.state = { contractAddress := s.contractAddress, tokenAddress := some t,
                  blockFreezeSeconds := some f, lastPublishedBlock := s.lastPublishedBlock,
                  lastBlockNumber :=
                    if playbackStartingBlock s ≤ H then some H else s.lastBlockNumber } := by
  unfold startup at h
  simp only [andThen_result_ok_iff, await] at h
  obtain ⟨_, _, t, ht, f, hf, lb, _, p, _, H, hH, h⟩ := h
  refine ⟨t, f, H, ht, hf, hH, ?_⟩
  rw [replay_state env P _ w H h]
  simp [playbackStartingBlock]

theorem mem_andThen_right {ε α β : Type} (o : Outcome ε α) (f : α → Outcome ε β) (a : α)
    (x : ε) (h : o.result = .ok a) (hx : x ∈ (f a).trace) : x ∈ (o.andThen f).trace := by
  rw [andThen_trace_ok _ _ a h]
  exact List.mem_append.mpr (Or.inr hx)

theorem replay_watermark_update {σ μ : Type} (env : Env μ) (P : Plasma σ μ) (w w1 : Watcher σ)
    (H : Nat) (h : (replay env P w H).result = .ok w1) (hle : playbackStartingBlock w.state ≤ H) :
    Effect.setLastBlockNumber H ∈ (replay env P w H).trace := by
  unfold replay at h ⊢
  rw [if_pos hle] at h ⊢
  obtain ⟨w0, h0, _⟩ := (andThen_result_ok_iff _ _ _).mp h
  exact mem_andThen_right _ _ w0 _ h0 (by simp)

theorem startup_watermark_update {σ μ : Type} (env : Env μ) (P : Plasma σ μ) (s : State)
    (w : Watcher σ) (H : Nat) (h : (startup env P s).result = .ok w)
    (hH : env.getBlockNumber = .ok H) (hle : playbackStartingBlock s ≤ H) :
    Effect.setLastBlockNumber H ∈ (startup env P s).trace := by
  unfold startup at h ⊢
  simp only [andThen_result_ok_iff, await] at h
  obtain ⟨u, hu, t, ht, f, hf, lb, hlb, p, hp, H1, hH1, h⟩ := h
  rw [hH] at hH1
  cases hH1
  refine mem_andThen_right _ _ u _ hu ?_
  refine mem_andThen_right _ _ t _ ht ?_
  refine mem_andThen_right _ _ f _ hf ?_
  refine mem_andThen_right _ _ lb _ hlb ?_
  refine mem_andThen_right _ _ p _ hp ?_
  refine mem_andThen_right _ _ H _ hH ?_
  exact replay_watermark_update env P _ w H h hle

/-- C9: if a startup step fails - the contract-identifier check, a contract
query, the checkpoint load, the chain-head query, a historical-event query, the
event load from the store or a `storeBlock` call - then `start` fails with
that error, and it has registered no live handler, has not started the
membership feed and has not asked the store to save the state. -/
theorem start_fails_fast {σ μ : Type} (env : Env μ) (P : Plasma σ μ) (s : State)
    (c : Call) (e : Err)
    (hfail : Effect.called c (some e) ∈ (start env P s).trace)
    (hstep : ∀ st, c ≠ .saveState st) :
    (start env P s).result = .error e ∧
    ∀ x ∈ (start env P s).trace, x.isRegistration = false ∧ x.isSaveState = false := by
  have hquiet : ∀ x ∈ (startup env P s).trace,
      x.isRegistration = false ∧ x.isSaveState = false := by
    intro x hx
    have := startup_all env P s x hx
    cases x <;> simp_all [Effect.isStartupEffect, Effect.isRegistration, Effect.isSaveState]
    split at this <;> simp_all
  unfold start at *
  cases hres : (startup env P s).result with
  | error e0 =>
    rw [andThen_trace_error _ _ e0 hres] at hfail ⊢
    have := startup_failFast env P s c e hfail
    exact ⟨andThen_result_error _ _ e this, hquiet⟩
  | ok w =>
    rw [andThen_trace_ok _ _ w hres] at hfail
    rcases List.mem_append.mp hfail with h1 | h2
    · have := startup_failFast env P s c e h1
      rw [hres] at this
      cases this
    · rw [goLive_trace] at h2
      simp at h2
      exact absurd h2.1 (hstep _)

/-- C10: in every successful run of `start`, no ledger call and no watermark
update comes after the registration of a live handler or the start of the
membership feed, and the watermark the handlers start from has reached the
chain head observed at startup (it equals that head whenever a replay ran). -/
theorem replay_before_live {σ μ : Type} (env : Env μ) (P : Plasma σ μ) (s : State)
    (w : Watcher σ) (H : Nat)
    (hok : (start env P s).result = .ok w) (hH : env.getBlockNumber = .ok H) :
    List.Pairwise
      (fun a b => a.isRegistration = true → b.isLedgerCall = false ∧ b.isWatermarkUpdate = false)
      (start env P s).trace ∧
    (∃ n, w.state.lastBlockNumber = some n ∧ H ≤ n) ∧
    (playbackStartingBlock s ≤ H → w.state.lastBlockNumber = some H ∧
      Effect.setLastBlockNumber H ∈ (start env P s).trace) := by
  unfold start at *
  obtain ⟨w0, h0, h1⟩ := (andThen_result_ok_iff _ _ _).mp hok
  have hw : w = w0 := goLive_result env w0 w h1
  subst hw
  obtain ⟨t, f, H1, _, _, hH1, hst⟩ := startup_state env P s w h0
  rw [hH] at hH1
  cases hH1
  rw [andThen_trace_ok _ _ w h0]
  refine ⟨?_, ?_, ?_⟩
  · rw [List.pairwise_append]
    refine ⟨?_, ?_, ?_⟩
    · refine List.pairwise_of_forall_mem_list (fun a ha b _ hreg => ?_)
      have := startup_all env P s a ha
      cases a <;> simp_all [Effect.isStartupEffect, Effect.isRegistration]
    · rw [goLive_trace]
      simp [Effect.isLedgerCall, Effect.isWatermarkUpdate]
    · intro a ha b hb hreg
      have := startup_all env P s a ha
      cases a <;> simp_all [Effect.isStartupEffect, Effect.isRegistration]
  · rw [hst]
    by_cases hle : playbackStartingBlock s ≤ H
    · exact ⟨H, by simp [hle], le_refl _⟩
    · cases hn : s.lastBlockNumber with
      | none => simp [playbackStartingBlock, toJsNumber_of_lt, hn] at hle
      | some n =>
        refine ⟨n, by simp [hle], ?_⟩
        simp only [playbackStartingBlock, toJsNumber_of_lt, hn] at hle
        by_contra hlt
        exact hle (toJsNumber_le (n + 1) H (by omega) (env.getBlockNumber_number H hH))
  · intro hle
    refine ⟨by rw [hst]; simp [hle], ?_⟩
    exact List.mem_append.mpr (Or.inl (startup_watermark_update env P s w H h0 hH hle))

theorem playbackLoop_noWindow {σ μ : Type} (P : Plasma σ μ) (events : List Event) (p : σ) :
    ∀ x ∈ (playbackLoop P events p).trace,
      x.queryWindow = none ∧ x.isWatermarkUpdate = false := by
  intro x hx
  rcases playbackLoop_all P events p x hx with h | ⟨e, h⟩
  · cases x <;> simp_all [Effect.isLedgerCall, Effect.queryWindow, Effect.isWatermarkUpdate]
    split at h <;> simp_all
  · rw [h]; exact ⟨rfl, rfl⟩

theorem playback_window {σ μ : Type} (env : Env μ) (P : Plasma σ μ) (w : Watcher σ)
    (a b : Nat) : ∀ x ∈ (playback env P w a b).trace,
      (x.queryWindow = none ∨ x.queryWindow = some (a, b)) ∧ x.isWatermarkUpdate = false := by
  unfold playback
  refine all_andThen _ _ _
    (by simp [await, Effect.queryWindow, Effect.isWatermarkUpdate]) (fun _ _ => ?_)
  refine all_andThen _ _ _
    (by simp [await, Effect.queryWindow, Effect.isWatermarkUpdate]) (fun _ _ => ?_)
  refine all_andThen _ _ _
    (by simp [await, Effect.queryWindow, Effect.isWatermarkUpdate]) (fun _ _ => ?_)
  refine all_andThen _ _ _ (fun x hx => ?_) (fun _ _ => by simp)
  exact ⟨Or.inl (playbackLoop_noWindow _ _ _ x hx).1, (playbackLoop_noWindow _ _ _ x hx).2⟩

theorem playback_first {σ μ : Type} (env : Env μ) (P : Plasma σ μ) (w : Watcher σ)
    (a b : Nat) :
    Effect.called (.getPastEvents "BlockCreated" a b) (failureOf (env.getPastBlockCreated a b))
      ∈ (playback env P w a b).trace := by
  unfold playback
  cases h : env.getPastBlockCreated a b with
  | error e => simp [Outcome.andThen, await, h]
  | ok l => simp [Outcome.andThen, await, h]

theorem replay_window {σ μ : Type} (env : Env μ) (P : Plasma σ μ) (w : Watcher σ) (H : Nat) :
    ∀ x ∈ (replay env P w H).trace,
      (x.queryWindow = none ∨
        (playbackStartingBlock w.state ≤ H ∧
          x.queryWindow = some (playbackStartingBlock w.state, H))) ∧
      (x.isWatermarkUpdate = true →
        playbackStartingBlock w.state ≤ H ∧ x = Effect.setLastBlockNumber H) := by
  unfold replay
  split_ifs with hle
  · refine all_andThen _ _ _ (fun x hx => ?_) (fun _ _ => ?_)
    · obtain ⟨h1, h2⟩ := playback_window env P w _ _ x hx
      refine ⟨?_, fun h => ?_⟩
      · rcases h1 with h1 | h1
        · exact Or.inl h1
        · exact Or.inr ⟨hle, h1⟩
      · rw [h2] at h
        cases h
    · simp [Effect.queryWindow, hle]
  · simp

theorem replay_first {σ μ : Type} (env : Env μ) (P : Plasma σ μ) (w : Watcher σ) (H : Nat)
    (hle : playbackStartingBlock w.state ≤ H) :
    Effect.called (.getPastEvents "BlockCreated" (playbackStartingBlock w.state) H)
        (failureOf (env.getPastBlockCreated (playbackStartingBlock w.state) H))
      ∈ (replay env P w H).trace := by
  unfold replay
  rw [if_pos hle]
  have := playback_first env P w (playbackStartingBlock w.state) H
  cases hres : (playback env P w (playbackStartingBlock w.state) H).result with
  | error e => rw [andThen_trace_error _ _ e hres]; exact this
  | ok a => rw [andThen_trace_ok _ _ a hres]; exact List.mem_append.mpr (Or.inl this)

theorem startup_closed {σ μ : Type} (env : Env μ) (P : Plasma σ μ) (s : State)
    (t : Address) (f H : Nat) (lb : Option (Block μ))
    (h1 : env.throwIfSetButNotContract s.contractAddress = .ok ())
    (h2 : env.token = .ok t) (h3 : env.blockFreezeSeconds = .ok f)
    (h4 : (loadLastBlock env s).result = .ok lb) (hH : env.getBlockNumber = .ok H) :
    (startup env P s).trace =
      ([.called (.throwIfSetButNotContract s.contractAddress) none, .called .token none,
        .called .blockFreezeSeconds none] ++ (loadLastBlock env s).trace ++
        [.newMonoplasma (savedMembers lb) f, .called .getBlockNumber none]) ++
      (replay env P ⟨{ s with tokenAddress := some t, blockFreezeSeconds := some f },
          P.create (savedMembers lb) f⟩ H).trace ∧
    (startup env P s).result =
      (replay env P ⟨{ s with tokenAddress := some t, blockFreezeSeconds := some f },
          P.create (savedMembers lb) f⟩ H).result := by
  have h4b : (loadLastBlock env
      { s with tokenAddress := some t, blockFreezeSeconds := some f }).result = .ok lb := h4
  have htr : (loadLastBlock env
      { s with tokenAddress := some t, blockFreezeSeconds := some f }).trace
        = (loadLastBlock env s).trace := rfl
  constructor
  · unfold startup
    rw [andThen_trace_ok _ _ () h1, andThen_trace_ok _ _ t h2, andThen_trace_ok _ _ f h3]
    dsimp only
    rw [andThen_trace_ok _ _ lb h4b, andThen_trace_ok _ _ (P.create (savedMembers lb) f) rfl,
      andThen_trace_ok _ _ H hH, htr]
    simp [await, failureOf, h1, h2, h3, hH]
  · unfold startup
    rw [andThen_result_ok _ _ () h1, andThen_result_ok _ _ t h2, andThen_result_ok _ _ f h3]
    dsimp only
    rw [andThen_result_ok _ _ lb h4b, andThen_result_ok _ _ (P.create (savedMembers lb) f) rfl,
      andThen_result_ok _ _ H hH]

/-- When the chain-head query of `start` was made and answered, every earlier
step had succeeded, and the trace of `start` is the trace of those steps,
followed by the replay and, when the replay succeeds, by the live phase. -/
theorem start_observed {σ μ : Type} (env : Env μ) (P : Plasma σ μ) (s : State) (H : Nat)
    (hH : env.getBlockNumber = .ok H)
    (hobs : Effect.called .getBlockNumber none ∈ (start env P s).trace) :
    ∃ t f lb early late,
      env.token = .ok t ∧ env.blockFreezeSeconds = .ok f ∧
      (loadLastBlock env s).result = .ok lb ∧
      (∀ x ∈ early, x = Effect.newMonoplasma (savedMembers lb) f ∨
        (x.queryWindow = none ∧ x.isWatermarkUpdate = false ∧
          ∀ m g, x ≠ Effect.newMonoplasma m g)) ∧
      Effect.newMonoplasma (savedMembers lb) f ∈ early ∧
      (∀ x ∈ late, x.queryWindow = none ∧ x.isWatermarkUpdate = false ∧
          ∀ m g, x ≠ Effect.newMonoplasma m g) ∧
      (start env P s).trace = early ++
        (replay env P ⟨{ s with tokenAddress := some t, blockFreezeSeconds := some f },
          P.create (savedMembers lb) f⟩ H).trace ++ late ∧
      (startup env P s).result =
        (replay env P ⟨{ s with tokenAddress := some t, blockFreezeSeconds := some f },
          P.create (savedMembers lb) f⟩ H).result := by
  cases h1 : env.throwIfSetButNotContract s.contractAddress with
  | error e =>
    simp [start, startup, Outcome.andThen, await, h1, failureOf] at hobs
  | ok u =>
  cases h2 : env.token with
  | error e =>
    simp [start, startup, Outcome.andThen, await, h1, h2, failureOf] at hobs
  | ok t =>
  cases h3 : env.blockFreezeSeconds with
  | error e =>
    simp [start, startup, Outcome.andThen, await, h1, h2, h3, failureOf] at hobs
  | ok f =>
  cases u
  cases h4 : (loadLastBlock env s).result with
  | error e =>
    exfalso
    have h4b : (loadLastBlock env
        { s with tokenAddress := some t, blockFreezeSeconds := some f }).result = .error e := h4
    have hres : (startup env P s).result = .error e := by
      unfold startup
      rw [andThen_result_ok _ _ () h1, andThen_result_ok _ _ t h2, andThen_result_ok _ _ f h3]
      dsimp only
      rw [andThen_result_error _ _ e h4b]
    have htr : (startup env P s).trace =
        [.called (.throwIfSetButNotContract s.contractAddress) none, .called .token none,
          .called .blockFreezeSeconds none] ++ (loadLastBlock env s).trace := by
      unfold startup
      rw [andThen_trace_ok _ _ () h1, andThen_trace_ok _ _ t h2, andThen_trace_ok _ _ f h3]
      dsimp only
      rw [andThen_trace_error _ _ e h4b]
      simp [await, failureOf, h1, h2, h3]
      rfl
    unfold start at hobs
    rw [andThen_trace_error _ _ e hres, htr] at hobs
    simp at hobs
    obtain ⟨r, fl, _, h⟩ := loadLastBlock_all env s _ hobs
    cases h
  | ok lb =>
    obtain ⟨htr, hres⟩ := startup_closed env P s t f H lb h1 h2 h3 h4 hH
    have hearly : ∀ x ∈ ([.called (.throwIfSetButNotContract s.contractAddress) none,
        .called .token none, .called .blockFreezeSeconds none] ++ (loadLastBlock env s).trace ++
        [.newMonoplasma (savedMembers lb) f, .called .getBlockNumber none] : List (Effect μ)),
        x = Effect.newMonoplasma (savedMembers lb) f ∨
        (x.queryWindow = none ∧ x.isWatermarkUpdate = false ∧
          ∀ m g, x ≠ Effect.newMonoplasma m g) := by
      intro x hx
      simp only [List.mem_append, List.mem_cons, List.mem_singleton, List.not_mem_nil,
        or_false] at hx
      rcases hx with ((hx | hx | hx) | hx) | hx | hx
      · subst hx; exact Or.inr ⟨rfl, rfl, fun _ _ h => by cases h⟩
      · subst hx; exact Or.inr ⟨rfl, rfl, fun _ _ h => by cases h⟩
      · subst hx; exact Or.inr ⟨rfl, rfl, fun _ _ h => by cases h⟩
      · obtain ⟨r, fl, _, h⟩ := loadLastBlock_all env s x hx
        subst h; exact Or.inr ⟨rfl, rfl, fun _ _ h => by cases h⟩
      · exact Or.inl hx
      · subst hx; exact Or.inr ⟨rfl, rfl, fun _ _ h => by cases h⟩
    cases hrep : (startup env P s).result with
    | error e =>
      refine ⟨t, f, lb, _, [], rfl, rfl, rfl, hearly, by simp, by simp, ?_, hrep ▸ hres⟩
      unfold start
      rw [andThen_trace_error _ _ e hrep, htr]
      simp
    | ok w =>
      refine ⟨t, f, lb, _, (goLive env w : Outcome (Effect μ) (Watcher σ)).trace,
        rfl, rfl, rfl, hearly, by simp, ?_, ?_, hrep ▸ hres⟩
      · rw [goLive_trace]
        intro x hx
        simp only [List.mem_cons, List.mem_singleton, List.not_mem_nil, or_false] at hx
        rcases hx with hx | hx | hx | hx | hx | hx | hx | hx <;> subst hx <;>
          exact ⟨rfl, rfl, fun _ _ h => by cases h⟩
      · unfold start
        rw [andThen_trace_ok _ _ w hrep, htr]

theorem playbackStartingBlock_eq (s : State)
    (hsafe : ∀ n, s.lastBlockNumber = some n → n < 9007199254740992) :
    playbackStartingBlock s = s.lastBlockNumber.elim 0 (fun n => n + 1) := by
  unfold playbackStartingBlock
  cases h : s.lastBlockNumber with
  | none => rfl
  | some n => exact toJsNumber_succ_of_lt n (hsafe n h)

/-- C2 (as amended): let `fromBlock` be `n + 1` for a start state with a
watermark `n` below 2^53 (9007199254740992), and `0` for a start state
without watermark, and let `H` be the chain head that `start` observed.
Every historical query of `start` (the two `getPastEvents`
calls and the `loadEvents` call) is made only if `fromBlock ≤ H` and then with
exactly the window `fromBlock`, `H`; if `fromBlock ≤ H` the replay is made;
the only watermark update is to `H`, made only if `fromBlock ≤ H`; and once
the startup steps are through the watermark is `H` if `fromBlock ≤ H` and is
left as it was otherwise. -/
theorem start_replay_window {σ μ : Type} (env : Env μ) (P : Plasma σ μ) (s : State)
    (H fromBlock : Nat)
    (hsafe : ∀ n, s.lastBlockNumber = some n → n < 9007199254740992)
    (hfrom : fromBlock = s.lastBlockNumber.elim 0 (fun n => n + 1))
    (hH : env.getBlockNumber = .ok H)
    (hobs : Effect.called .getBlockNumber none ∈ (start env P s).trace) :
    (∀ name a b fl, Effect.called (.getPastEvents name a b) fl ∈ (start env P s).trace →
      fromBlock ≤ H ∧ a = fromBlock ∧ b = H) ∧
    (∀ a b fl, Effect.called (.loadEvents a b) fl ∈ (start env P s).trace →
      fromBlock ≤ H ∧ a = fromBlock ∧ b = H) ∧
    (fromBlock ≤ H →
      Effect.called (.getPastEvents "BlockCreated" fromBlock H)
        (failureOf (env.getPastBlockCreated fromBlock H)) ∈ (start env P s).trace) ∧
    (∀ n, Effect.setLastBlockNumber n ∈ (start env P s).trace → fromBlock ≤ H ∧ n = H) ∧
    (∀ w, (startup env P s).result = .ok w →
      w.state.lastBlockNumber = (if fromBlock ≤ H then some H else s.lastBlockNumber) ∧
      (fromBlock ≤ H → Effect.setLastBlockNumber H ∈ (start env P s).trace)) ∧
    (∀ w, (start env P s).result = .ok w →
      w.state.lastBlockNumber = (if fromBlock ≤ H then some H else s.lastBlockNumber)) := by
  obtain ⟨t, f, lb, early, late, _, _, _, hearly, _, hlate, htrace, _⟩ :=
    start_observed env P s H hH hobs
  have hps : playbackStartingBlock
      ({ s with tokenAddress := some t, blockFreezeSeconds := some f } : State) = fromBlock := by
    rw [hfrom, ← playbackStartingBlock_eq s hsafe]
    rfl
  have hwin : ∀ x ∈ (start env P s).trace, ∀ a b, x.queryWindow = some (a, b) →
      fromBlock ≤ H ∧ a = fromBlock ∧ b = H := by
    intro x hx a b hq
    rw [htrace] at hx
    rcases List.mem_append.mp hx with hx | hx
    · rcases List.mem_append.mp hx with hx | hx
      · rcases hearly x hx with h | h
        · rw [h] at hq; cases hq
        · rw [h.1] at hq; cases hq
      · rcases (replay_window env P _ H x hx).1 with h | ⟨hle, h⟩
        · rw [h] at hq; cases hq
        · rw [hps] at hle h
          rw [h] at hq
          cases hq
          exact ⟨hle, rfl, rfl⟩
    · rw [(hlate x hx).1] at hq; cases hq
  have hstate : ∀ w, (startup env P s).result = .ok w →
      w.state.lastBlockNumber = (if fromBlock ≤ H then some H else s.lastBlockNumber) := by
    intro w hw
    obtain ⟨t1, f1, H1, _, _, hH1, hst⟩ := startup_state env P s w hw
    rw [hH] at hH1
    cases hH1
    rw [hst, hfrom, ← playbackStartingBlock_eq s hsafe]
  refine ⟨fun name a b fl h => hwin _ h a b rfl, fun a b fl h => hwin _ h a b rfl,
    fun hle => ?_, fun n hn => ?_, fun w hw => ⟨hstate w hw, fun hle => ?_⟩, fun w hw => ?_⟩
  · rw [htrace]
    have := replay_first env P
      ⟨{ s with tokenAddress := some t, blockFreezeSeconds := some f },
        P.create (savedMembers lb) f⟩ H (by rw [hps]; exact hle)
    rw [hps] at this
    exact List.mem_append.mpr (Or.inl (List.mem_append.mpr (Or.inr this)))
  · rw [htrace] at hn
    rcases List.mem_append.mp hn with hn | hn
    · rcases List.mem_append.mp hn with hn | hn
      · rcases hearly _ hn with h | h
        · cases h
        · have := h.2.1
          simp [Effect.isWatermarkUpdate] at this
      · obtain ⟨hle, h⟩ := (replay_window env P _ H _ hn).2 rfl
        rw [hps] at hle
        cases h
        exact ⟨hle, rfl⟩
    · have := (hlate _ hn).2.1
      simp [Effect.isWatermarkUpdate] at this
  · unfold start
    rw [andThen_trace_ok _ _ w hw]
    refine List.mem_append.mpr (Or.inl (startup_watermark_update env P s w H hw hH ?_))
    rw [playbackStartingBlock_eq s hsafe, ← hfrom]
    exact hle
  · unfold start at hw
    obtain ⟨w0, h0, h1⟩ := (andThen_result_ok_iff _ _ _).mp hw
    have := goLive_result env w0 w h1
    subst this
    exact hstate w h0

/-- C2 (as stated) fails at watermark 2^53 with chain head 2^53: `n + 1` is
above the head, yet line 43 computes `n + 1` in JavaScript numbers, where it
is 2^53 again, so `start` replays the window from 2^53 to 2^53. -/
theorem start_replay_window_counterexample :
    ¬ (9007199254740992 + 1 ≤ 9007199254740992) ∧
    (start edgeEnv listPlasma edgeState).trace =
      [.called (.throwIfSetButNotContract 1) none, .called .token none,
        .called .blockFreezeSeconds none, .newMonoplasma [] 1000, .called .getBlockNumber none,
        .called (.getPastEvents "BlockCreated" 9007199254740992 9007199254740992) none,
        .called (.getPastEvents "Transfer" 9007199254740992 9007199254740992) none,
        .called (.loadEvents 9007199254740992 9007199254740992) none,
        .setLastBlockNumber 9007199254740992,
        .subscribeTransfer 1, .onData, .onChanged, .onError, .channelListen, .onJoin, .onPart,
        .called (.saveState ⟨1, some 77, some 1000, some 9007199254740992, none⟩) none] := by
  have h : toJsNumber 9007199254740993 = 9007199254740992 := by decide
  refine ⟨by decide, ?_⟩
  simp [start, startup, replay, playback, playbackLoop, goLive, loadLastBlock, savedMembers,
    playbackStartingBlock, h, Outcome.andThen, await, failureOf, quietEnv, edgeEnv, edgeState]

theorem playback_noCreation {σ μ : Type} (env : Env μ) (P : Plasma σ μ) (w : Watcher σ)
    (a b : Nat) : ∀ x ∈ (playback env P w a b).trace, x.isCreation = false := by
  unfold playback
  refine all_andThen _ _ _ (by simp [await, Effect.isCreation]) (fun _ _ => ?_)
  refine all_andThen _ _ _ (by simp [await, Effect.isCreation]) (fun _ _ => ?_)
  refine all_andThen _ _ _ (by simp [await, Effect.isCreation]) (fun _ _ => ?_)
  refine all_andThen _ _ _ (fun x hx => ?_) (fun _ _ => by simp)
  rcases playbackLoop_all _ _ _ x hx with h | ⟨e, h⟩
  · cases x <;> simp_all [Effect.isLedgerCall, Effect.isCreation]
  · rw [h]; rfl

theorem replay_noCreation {σ μ : Type} (env : Env μ) (P : Plasma σ μ) (w : Watcher σ)
    (H : Nat) : ∀ x ∈ (replay env P w H).trace, x.isCreation = false := by
  unfold replay
  split_ifs
  · exact all_andThen _ _ _ (playback_noCreation _ _ _ _ _)
      (fun _ _ => by simp [Effect.isCreation])
  · simp

theorem goLive_noCreation {σ μ : Type} (env : Env μ) (w : Watcher σ) :
    ∀ x ∈ (goLive env w : Outcome (Effect μ) (Watcher σ)).trace, x.isCreation = false := by
  rw [goLive_trace]
  simp [Effect.isCreation]

/-- Once the contract check and the two contract queries have succeeded and
the checkpoint load has returned `lb`, `start` creates the ledger exactly
once, from the members of `lb`. -/
theorem start_creation {σ μ : Type} (env : Env μ) (P : Plasma σ μ) (s : State)
    (t : Address) (f : Nat) (lb : Option (Block μ))
    (h1 : env.throwIfSetButNotContract s.contractAddress = .ok ())
    (h2 : env.token = .ok t) (h3 : env.blockFreezeSeconds = .ok f)
    (h4 : (loadLastBlock env s).result = .ok lb) :
    Effect.newMonoplasma (savedMembers lb) f ∈ (start env P s).trace ∧
    ∀ m g, Effect.newMonoplasma m g ∈ (start env P s).trace → m = savedMembers lb ∧ g = f := by
  have h4b : (loadLastBlock env
      { s with tokenAddress := some t, blockFreezeSeconds := some f }).result = .ok lb := h4
  have hsplit : ∃ rest : List (Effect μ), (∀ x ∈ rest, x.isCreation = false) ∧
      (start env P s).trace =
        ([.called (.throwIfSetButNotContract s.contractAddress) none, .called .token none,
          .called .blockFreezeSeconds none] ++ (loadLastBlock env s).trace) ++
        .newMonoplasma (savedMembers lb) f :: rest := by
    have hst : ∃ rest : List (Effect μ), (∀ x ∈ rest, x.isCreation = false) ∧
        (startup env P s).trace =
          ([.called (.throwIfSetButNotContract s.contractAddress) none, .called .token none,
            .called .blockFreezeSeconds none] ++ (loadLastBlock env s).trace) ++
          .newMonoplasma (savedMembers lb) f :: rest := by
      refine ⟨((await .getBlockNumber env.getBlockNumber : Outcome (Effect μ) Nat).andThen
          fun latestBlock => replay env P
            ⟨{ s with tokenAddress := some t, blockFreezeSeconds := some f },
              P.create (savedMembers lb) f⟩ latestBlock).trace, ?_, ?_⟩
      · exact all_andThen _ _ _ (by simp [await, Effect.isCreation])
          (fun _ _ => replay_noCreation _ _ _ _)
      · unfold startup
        rw [andThen_trace_ok _ _ () h1, andThen_trace_ok _ _ t h2, andThen_trace_ok _ _ f h3]
        dsimp only
        rw [andThen_trace_ok _ _ lb h4b,
          andThen_trace_ok _ _ (P.create (savedMembers lb) f) rfl]
        simp [await, failureOf, h1, h2, h3]
        rfl
    obtain ⟨rest, hrest, htr⟩ := hst
    cases hres : (startup env P s).result with
    | error e =>
      refine ⟨rest, hrest, ?_⟩
      unfold start
      rw [andThen_trace_error _ _ e hres, htr]
    | ok w =>
      refine ⟨rest ++ (goLive env w : Outcome (Effect μ) (Watcher σ)).trace, ?_, ?_⟩
      · intro x hx
        rcases List.mem_append.mp hx with h | h
        · exact hrest x h
        · exact goLive_noCreation env w x h
      · unfold start
        rw [andThen_trace_ok _ _ w hres, htr]
        simp
  obtain ⟨rest, hrest, htr⟩ := hsplit
  rw [htr]
  refine ⟨by simp, fun m g hm => ?_⟩
  simp only [List.mem_append, List.mem_cons, List.mem_singleton, List.not_mem_nil,
    or_false] at hm
  rcases hm with ((hm | hm | hm) | hm) | hm | hm
  · cases hm
  · cases hm
  · cases hm
  · obtain ⟨r, fl, _, h⟩ := loadLastBlock_all env s _ hm
    cases h
  · cases hm
    exact ⟨rfl, rfl⟩
  · have := hrest _ hm
    simp [Effect.isCreation] at this

/-- C8 (as amended): once the contract check and the two contract queries
have succeeded, `start` creates the ledger exactly once; it seeds it with the
member set of the checkpoint the store returns for the state's last published
reference when that reference is not 0 and the store has a checkpoint for it,
and with the empty member set when the state has no last published reference,
when the reference is 0, or when the store has no checkpoint for it. -/
theorem start_seeds_ledger {σ μ : Type} (env : Env μ) (P : Plasma σ μ) (s : State)
    (t : Address) (f : Nat)
    (h1 : env.throwIfSetButNotContract s.contractAddress = .ok ())
    (h2 : env.token = .ok t) (h3 : env.blockFreezeSeconds = .ok f) :
    (∀ r b, s.lastPublishedBlock = some r → r ≠ 0 → env.loadBlock r = .ok (some b) →
      Effect.newMonoplasma b.members f ∈ (start env P s).trace ∧
      ∀ m g, Effect.newMonoplasma m g ∈ (start env P s).trace → m = b.members ∧ g = f) ∧
    ((s.lastPublishedBlock = none ∨ s.lastPublishedBlock = some 0 ∨
        ∃ r, s.lastPublishedBlock = some r ∧ env.loadBlock r = .ok none) →
      Effect.newMonoplasma [] f ∈ (start env P s).trace ∧
      ∀ m g, Effect.newMonoplasma m g ∈ (start env P s).trace → m = [] ∧ g = f) := by
  constructor
  · intro r b hr hr0 hb
    have h4 : (loadLastBlock env s).result = .ok (some b) := by
      unfold loadLastBlock
      rw [hr]
      cases r with
      | zero => exact absurd rfl hr0
      | succ k => simpa [await] using hb
    exact start_creation env P s t f (some b) h1 h2 h3 h4
  · intro h
    have h4 : (loadLastBlock env s).result = .ok none := by
      unfold loadLastBlock
      rcases h with h | h | ⟨r, h, hb⟩
      · rw [h]
      · rw [h]
      · rw [h]
        cases r with
        | zero => rfl
        | succ k => simpa [await] using hb
    exact start_creation env P s t f none h1 h2 h3 h4

/-- C8 (as stated) fails for reference number 0: the store has a checkpoint
with members 5 and 6 for reference 0, yet `start` never asks the store for it
and creates the ledger from the empty member set. -/
theorem start_seeds_ledger_counterexample :
    (start { quietEnv with loadBlock := fun _ => .ok (some ⟨[5, 6]⟩) } listPlasma
        ⟨1, none, none, some 10, some 0⟩).trace =
      [.called (.throwIfSetButNotContract 1) none, .called .token none,
        .called .blockFreezeSeconds none, .newMonoplasma [] 1000, .called .getBlockNumber none,
        .subscribeTransfer 1, .onData, .onChanged, .onError, .channelListen, .onJoin, .onPart,
        .called (.saveState ⟨1, some 77, some 1000, some 10, some 0⟩) none] := by
  simp [start, startup, replay, goLive, loadLastBlock, savedMembers,
    playbackStartingBlock, toJsNumber_of_lt,
    Outcome.andThen, await, failureOf, quietEnv]

/-- A replay of a join, a deposit, a published block and an unknown event
completes with one action per event and ends with the ledger that holds
member 5, revenue 10 and block 1; a replay with a repeated published block
stops at the repetition. -/
theorem playback_dispatch_witness :
    (playbackLoop listPlasma
        [joinEvent 1 [5], transferEvent 2 10, blockCreatedEvent 3 1, ⟨"Mint", 3, ⟨0, 0⟩, []⟩]
        (listPlasma.create [] 0) : Outcome (Effect Address) ListLedger).result =
      .ok ⟨[5], 10, [1]⟩ ∧
    (playbackLoop listPlasma
        [joinEvent 1 [5], transferEvent 2 10, blockCreatedEvent 3 1, ⟨"Mint", 3, ⟨0, 0⟩, []⟩]
        (listPlasma.create [] 0)).trace =
      [.addMembers [5], .addRevenue 10, .called (.storeBlock 1) none,
        .error (.unexpectedEvent ⟨"Mint", 3, ⟨0, 0⟩, []⟩)] ∧
    ∃ before e after,
      [blockCreatedEvent 3 1, blockCreatedEvent 3 1, transferEvent 4 5] = before ++ e :: after ∧
      e.event = "BlockCreated" ∧
      (playbackLoop listPlasma [blockCreatedEvent 3 1, blockCreatedEvent 3 1, transferEvent 4 5]
          (listPlasma.create [] 0)).trace =
        before.map (prescribed : Event → Effect Address) ++
          [.called (.storeBlock e.returnValues.blockNumber) (some "block already stored")] := by
  have hres : (playbackLoop listPlasma
      [joinEvent 1 [5], transferEvent 2 10, blockCreatedEvent 3 1, ⟨"Mint", 3, ⟨0, 0⟩, []⟩]
      (listPlasma.create [] 0) : Outcome (Effect Address) ListLedger).result =
      .ok ⟨[5], 10, [1]⟩ := by
    refine ((playback_dispatch listPlasma _ (listPlasma.create [] 0)).1).trans ?_
    simp [ledgerAfterAll, ledgerAfter, listPlasma, joinEvent, transferEvent, blockCreatedEvent]
  refine ⟨hres, ?_, ?_⟩
  · refine ((playback_dispatch listPlasma _ (listPlasma.create [] 0)).2.1 ⟨[5], 10, [1]⟩
      hres).trans ?_
    simp [prescribed, joinEvent, transferEvent, blockCreatedEvent]
  · refine (playback_dispatch listPlasma _ (listPlasma.create [] 0)).2.2
      "block already stored" ?_
    simp [playbackLoop, playbackEvent, Outcome.andThen, await, listPlasma, blockCreatedEvent]

/-- With watermark 4 and chain head 10, `start` replays the window 5..10 and
ends with watermark 10. -/
theorem start_replay_window_witness :
    Effect.called (.getPastEvents "BlockCreated" 5 10) none
      ∈ (start quietEnv listPlasma sampleState).trace ∧
    ∀ w, (start quietEnv listPlasma sampleState).result = .ok w →
      w.state.lastBlockNumber = some 10 := by
  have hobs : Effect.called .getBlockNumber none
      ∈ (start quietEnv listPlasma sampleState).trace := by
    simp [start, startup, replay, playback, playbackLoop, goLive, loadLastBlock, savedMembers,

      playbackStartingBlock, toJsNumber_of_lt, Outcome.andThen, await, failureOf, quietEnv, sampleState]
  have h := start_replay_window quietEnv listPlasma sampleState 10 5
    (fun n hn => by cases hn; decide) rfl rfl hobs
  exact ⟨h.2.2.1 (by decide), fun w hw => h.2.2.2.2.2 w hw⟩

/-- A deposit of 7 in block 11 moves the watermark to 11 and is applied to the
ledger whether the store saves the state or rejects the request. -/
theorem deposit_handler_witness :
    (deliver quietEnv listPlasma ⟨sampleState, ⟨[8], 0, []⟩⟩ (.data (transferEvent 11 7))).1 =
      [.setLastBlockNumber 11, .addRevenue 7,
        .called (.saveState { sampleState with lastBlockNumber := some 11 }) none] ∧
    (deliver readOnlyEnv listPlasma ⟨sampleState, ⟨[8], 0, []⟩⟩ (.data (transferEvent 11 7))).1 =
      [.setLastBlockNumber 11, .addRevenue 7,
        .called (.saveState { sampleState with lastBlockNumber := some 11 }) (some "disk full"),
        .error (.raised "disk full")] ∧
    (deliver readOnlyEnv listPlasma ⟨sampleState, ⟨[8], 0, []⟩⟩
        (.data (transferEvent 11 7))).2.plasma = ⟨[8], 7, []⟩ :=
  ⟨(deposit_handler quietEnv listPlasma ⟨sampleState, ⟨[8], 0, []⟩⟩
      (transferEvent 11 7)).2.2.1 rfl,
    (deposit_handler readOnlyEnv listPlasma ⟨sampleState, ⟨[8], 0, []⟩⟩
      (transferEvent 11 7)).2.2.2 "disk full" rfl,
    (deposit_handler readOnlyEnv listPlasma ⟨sampleState, ⟨[8], 0, []⟩⟩
      (transferEvent 11 7)).2.1⟩

/-- Joining 8 and 9 when 8 is already a member saves a "Join" record with the
list `[9]`, and replay dispatches such a record to `addMembers [9]`, which
makes 9 a member; parting 8 and 9 saves a "Part" record with the list `[8]`,
which replay dispatches to `removeMembers [8]`, which removes 8. -/
theorem join_part_handler_witness :
    ((playbackEvent listPlasma (⟨[], 0, []⟩ : ListLedger) (joinEvent 4 [9])).trace =
        [(.addMembers [9] : Effect Address)] ∧
      (playbackEvent listPlasma (⟨[], 0, []⟩ : ListLedger) (joinEvent 4 [9]) :
          Outcome (Effect Address) ListLedger).result = .ok ⟨[9], 0, []⟩) ∧
    ((playbackEvent listPlasma (⟨[8, 3], 0, []⟩ : ListLedger) (partEvent 4 [8])).trace =
        [(.removeMembers [8] : Effect Address)] ∧
      (playbackEvent listPlasma (⟨[8, 3], 0, []⟩ : ListLedger) (partEvent 4 [8]) :
          Outcome (Effect Address) ListLedger).result = .ok ⟨[3], 0, []⟩) :=
  ⟨(join_part_handler quietEnv listPlasma ⟨sampleState, ⟨[8], 0, []⟩⟩ [8, 9]).2.2.2.2.1
      (joinEvent 4 [9]) ⟨[], 0, []⟩ rfl (by simp [joinEvent, listPlasma]),
    (join_part_handler quietEnv listPlasma ⟨sampleState, ⟨[8], 0, []⟩⟩ [8, 9]).2.2.2.2.2
      (partEvent 4 [8]) ⟨[8, 3], 0, []⟩ rfl (by simp [partEvent, listPlasma])⟩

/-- With last published reference 3 the ledger is seeded with the members of
the stored checkpoint; without a reference it is seeded with no members. -/
theorem start_seeds_ledger_witness :
    Effect.newMonoplasma [5, 6] 1000
      ∈ (start checkpointEnv listPlasma ⟨1, none, none, some 4, some 3⟩).trace ∧
    Effect.newMonoplasma [] 1000 ∈ (start checkpointEnv listPlasma sampleState).trace :=
  ⟨((start_seeds_ledger checkpointEnv listPlasma ⟨1, none, none, some 4, some 3⟩ 77 1000
      rfl rfl rfl).1 3 ⟨[5, 6]⟩ rfl (by decide) rfl).1,
    ((start_seeds_ledger checkpointEnv listPlasma sampleState 77 1000
      rfl rfl rfl).2 (Or.inl rfl)).1⟩

/-- When the chain-head query fails, `start` fails with that error and its
trace holds neither a registration nor a request to save the state. -/
theorem start_fails_fast_witness :
    (start offlineEnv listPlasma sampleState).result = .error "no connection" ∧
    ∀ x ∈ (start offlineEnv listPlasma sampleState).trace,
      x.isRegistration = false ∧ x.isSaveState = false :=
  start_fails_fast offlineEnv listPlasma sampleState .getBlockNumber "no connection"
    (by simp [start, startup, loadLastBlock, savedMembers, Outcome.andThen, await, failureOf,
      quietEnv, offlineEnv, sampleState])
    (fun st h => by cases h)

/-- With watermark 4 and chain head 10, a successful `start` has no ledger call
or watermark update after a registration, and its watermark is 10. -/
theorem replay_before_live_witness :
    List.Pairwise
      (fun a b => a.isRegistration = true → b.isLedgerCall = false ∧ b.isWatermarkUpdate = false)
      (start quietEnv listPlasma sampleState).trace ∧
    (∃ n, (⟨1, some 77, some 1000, some 10, none⟩ : State).lastBlockNumber = some n ∧ 10 ≤ n) :=
  ⟨(replay_before_live quietEnv listPlasma sampleState
      ⟨⟨1, some 77, some 1000, some 10, none⟩, ⟨[], 0, []⟩⟩ 10
      (by simp [start, startup, replay, playback, playbackLoop, goLive, loadLastBlock,
        savedMembers,
        playbackStartingBlock, toJsNumber_of_lt, Outcome.andThen, await, quietEnv, sampleState,
        listPlasma])
      rfl).1,
    (replay_before_live quietEnv listPlasma sampleState
      ⟨⟨1, some 77, some 1000, some 10, none⟩, ⟨[], 0, []⟩⟩ 10
      (by simp [start, startup, replay, playback, playbackLoop, goLive, loadLastBlock,
        savedMembers,
        playbackStartingBlock, toJsNumber_of_lt, Outcome.andThen, await, quietEnv, sampleState,
        listPlasma])
      rfl).2.1⟩

/-! ## Theorems: event merge -/

theorem mergeKeyLE_trans (a b c : Event) (h1 : mergeKeyLE a b = true)
    (h2 : mergeKeyLE b c = true) : mergeKeyLE a c = true := by
  simp only [mergeKeyLE, decide_eq_true_eq] at *
  omega

theorem mergeKeyLE_total (a b : Event) : (mergeKeyLE a b || mergeKeyLE b a) = true := by
  simp only [mergeKeyLE, Bool.or_eq_true, decide_eq_true_eq]
  omega

theorem mergeKeyLE_of_same_priority (l : List Event) (k : Nat)
    (hk : ∀ e ∈ l, streamPriority e = k)
    (hs : l.Pairwise (fun x y => x.blockNumber ≤ y.blockNumber)) :
    l.Pairwise (fun x y => mergeKeyLE x y = true) := by
  refine hs.imp_of_mem (fun hx hy hle => ?_)
  simp only [mergeKeyLE, decide_eq_true_eq, hk _ hx, hk _ hy]
  omega

theorem mergeEventLists_sorted (l1 l2 : List Event)
    (h1 : l1.Pairwise (fun x y => mergeKeyLE x y = true))
    (h2 : l2.Pairwise (fun x y => mergeKeyLE x y = true)) :
    (mergeEventLists l1 l2).Pairwise (fun x y => mergeKeyLE x y = true) :=
  List.sorted_merge mergeKeyLE_trans mergeKeyLE_total l1 l2 h1 h2

/-- The events the replay loop got to, each paired with the action taken for
it: the loop goes through a front part of the list, all of it when it
completes. -/
theorem playbackLoop_applied {σ μ : Type} (P : Plasma σ μ) (events : List Event) (p : σ) :
    ∃ applied rest, events = applied ++ rest ∧
      List.Forall₂
        (fun e x => x = prescribed e ∨
          ∃ err, x = Effect.called (.storeBlock e.returnValues.blockNumber) (some err))
        applied (playbackLoop P events p).trace ∧
      (∀ p1, (playbackLoop P events p).result = .ok p1 → rest = []) := by
  induction events generalizing p with
  | nil => exact ⟨[], [], rfl, by simp [playbackLoop], fun _ _ => rfl⟩
  | cons e tl ih =>
    cases hres : (playbackEvent P p e).result with
    | error err =>
      obtain ⟨_, htr⟩ := playbackEvent_error P p e err hres
      refine ⟨[e], tl, rfl, ?_, fun p1 h => ?_⟩
      · rw [playbackLoop, andThen_trace_error _ _ err hres, htr]
        exact List.Forall₂.cons (Or.inr ⟨err, rfl⟩) List.Forall₂.nil
      · rw [playbackLoop, andThen_result_error _ _ err hres] at h
        cases h
    | ok p0 =>
      obtain ⟨applied, rest, hsplit, hall, hrest⟩ := ih p0
      refine ⟨e :: applied, rest, by rw [hsplit]; rfl, ?_, fun p1 h => ?_⟩
      · rw [playbackLoop, andThen_trace_ok _ _ p0 hres, playbackEvent_ok P p p0 e hres]
        exact List.Forall₂.cons (Or.inl rfl) hall
      · rw [playbackLoop, andThen_result_ok _ _ p0 hres] at h
        exact hrest p1 h

theorem andThen_pure_trace {ε α β : Type} (o : Outcome ε α) (g : α → β) :
    (o.andThen fun a => ⟨[], .ok (g a)⟩).trace = o.trace := by
  cases hres : o.result with
  | error e => simp [Outcome.andThen, hres]
  | ok a => simp [Outcome.andThen, hres]

theorem andThen_pure_result {ε α β : Type} (o : Outcome ε α) (g : α → β) (b : β)
    (h : (o.andThen fun a => ⟨[], .ok (g a)⟩).result = .ok b) : ∃ a, o.result = .ok a := by
  obtain ⟨a, ha, _⟩ := (andThen_result_ok_iff _ _ _).mp h
  exact ⟨a, ha⟩

theorem forall₂_right_mem {α β : Type} (R : α → β → Prop) (l1 : List α) (l2 : List β)
    (h : List.Forall₂ R l1 l2) : ∀ y ∈ l2, ∃ x ∈ l1, R x y := by
  induction h with
  | nil => intro y hy; cases hy
  | cons hr _ ih =>
    intro y hy
    rcases List.mem_cons.mp hy with rfl | hy
    · exact ⟨_, List.mem_cons_self _ _, hr⟩
    · obtain ⟨x, hx, hxy⟩ := ih y hy
      exact ⟨x, List.mem_cons_of_mem _ hx, hxy⟩

theorem prescribed_isLedgerCall {μ : Type} (e : Event)
    (h : e.event = "BlockCreated" ∨ e.event = "Transfer" ∨ e.event = "Join" ∨ e.event = "Part") :
    (prescribed e : Effect μ).isLedgerCall = true := by
  unfold prescribed
  split_ifs <;> simp_all [Effect.isLedgerCall]

/-- C3: with `mergeEventLists` as the spec describes the Event Merger, for
every trio of historical event lists (commitment confirmations, deposits,
membership records), each ordered by non-decreasing block number, the events
`playback` applies to the ledger - a front part `applied` of the merged list,
all of it when `playback` completes, each event matched with its ledger call
in the trace - are ordered by block number and, within one block, membership
before deposit before commitment confirmation; in particular a `Transfer`
never comes before a `Join` of the same block. -/
theorem playback_order {σ μ : Type} (env : Env μ) (P : Plasma σ μ) (w : Watcher σ)
    (fromBlock toBlock : Nat) (blockCreateEvents transferEvents joinPartEvents : List Event)
    (hmerge : env.mergeEventLists = mergeEventLists)
    (hbc : env.getPastBlockCreated fromBlock toBlock = .ok blockCreateEvents)
    (htr : env.getPastTransfers w.state.contractAddress fromBlock toBlock = .ok transferEvents)
    (hjp : env.loadEvents fromBlock toBlock = .ok joinPartEvents)
    (hbcTag : ∀ e ∈ blockCreateEvents, e.event = "BlockCreated")
    (htrTag : ∀ e ∈ transferEvents, e.event = "Transfer")
    (hjpTag : ∀ e ∈ joinPartEvents, e.event = "Join" ∨ e.event = "Part")
    (hbcSorted : blockCreateEvents.Pairwise (fun x y => x.blockNumber ≤ y.blockNumber))
    (htrSorted : transferEvents.Pairwise (fun x y => x.blockNumber ≤ y.blockNumber))
    (hjpSorted : joinPartEvents.Pairwise (fun x y => x.blockNumber ≤ y.blockNumber)) :
    ∃ applied rest calls,
      mergeEventLists (mergeEventLists blockCreateEvents transferEvents) joinPartEvents
        = applied ++ rest ∧
      List.Perm (applied ++ rest) (blockCreateEvents ++ transferEvents ++ joinPartEvents) ∧
      (playback env P w fromBlock toBlock).trace =
        [.called (.getPastEvents "BlockCreated" fromBlock toBlock) none,
          .called (.getPastEvents "Transfer" fromBlock toBlock) none,
          .called (.loadEvents fromBlock toBlock) none] ++ calls ∧
      List.Forall₂
        (fun e x => x = prescribed e ∨
          ∃ err, x = Effect.called (.storeBlock e.returnValues.blockNumber) (some err))
        applied calls ∧
      (∀ x ∈ calls, x.isLedgerCall = true) ∧
      (∀ w1, (playback env P w fromBlock toBlock).result = .ok w1 → rest = []) ∧
      applied.Pairwise MergeOrdered ∧
      (∀ j t, j.event = "Join" → t.event = "Transfer" → j.blockNumber = t.blockNumber →
        ¬ List.Sublist [t, j] applied) := by
  have hsorted : (mergeEventLists (mergeEventLists blockCreateEvents transferEvents)
      joinPartEvents).Pairwise (fun x y => mergeKeyLE x y = true) := by
    refine mergeEventLists_sorted _ _ (mergeEventLists_sorted _ _ ?_ ?_) ?_
    · exact mergeKeyLE_of_same_priority _ 2
        (fun e he => by simp [streamPriority, hbcTag e he]) hbcSorted
    · exact mergeKeyLE_of_same_priority _ 1
        (fun e he => by simp [streamPriority, htrTag e he]) htrSorted
    · refine mergeKeyLE_of_same_priority _ 0 (fun e he => ?_) hjpSorted
      rcases hjpTag e he with h | h <;> simp [streamPriority, h]
  have hperm : List.Perm
      (mergeEventLists (mergeEventLists blockCreateEvents transferEvents) joinPartEvents)
      (blockCreateEvents ++ transferEvents ++ joinPartEvents) :=
    (List.merge_perm_append mergeKeyLE).trans
      (List.Perm.append_right _ (List.merge_perm_append mergeKeyLE))
  obtain ⟨applied, rest, hsplit, hall, hrest⟩ := playbackLoop_applied (μ := μ) P
    (mergeEventLists (mergeEventLists blockCreateEvents transferEvents) joinPartEvents) w.plasma
  have happlied : applied.Pairwise MergeOrdered := by
    rw [hsplit] at hsorted
    refine (List.pairwise_append.mp hsorted).1.imp (fun h => ?_)
    simp only [mergeKeyLE, decide_eq_true_eq] at h
    exact ⟨by omega, fun heq => by omega⟩
  refine ⟨applied, rest, _, hsplit, hsplit ▸ hperm, ?_, hall, ?_, ?_, happlied, ?_⟩
  · unfold playback
    rw [andThen_trace_ok _ _ blockCreateEvents hbc, andThen_trace_ok _ _ transferEvents htr,
      andThen_trace_ok _ _ joinPartEvents hjp]
    dsimp only
    rw [andThen_pure_trace, hmerge]
    simp [await, failureOf, hbc, htr, hjp]
  · intro x hx
    obtain ⟨e, he, hex⟩ := forall₂_right_mem _ _ _ hall x hx
    have hmem : e ∈ blockCreateEvents ++ transferEvents ++ joinPartEvents :=
      hperm.subset (hsplit ▸ List.mem_append_left rest he)
    rcases hex with h | ⟨err, h⟩
    · rw [h]
      refine prescribed_isLedgerCall e ?_
      simp only [List.mem_append] at hmem
      rcases hmem with (hm | hm) | hm
      · exact Or.inl (hbcTag e hm)
      · exact Or.inr (Or.inl (htrTag e hm))
      · exact Or.inr (Or.inr (hjpTag e hm))
    · rw [h]; rfl
  · intro w1 hw1
    unfold playback at hw1
    rw [andThen_result_ok _ _ blockCreateEvents hbc, andThen_result_ok _ _ transferEvents htr,
      andThen_result_ok _ _ joinPartEvents hjp] at hw1
    dsimp only at hw1
    rw [hmerge] at hw1
    obtain ⟨p1, hp1, _⟩ := (andThen_result_ok_iff _ _ _).mp hw1
    exact hrest p1 hp1
  · intro j t hj ht hblock hsub
    have := happlied.sublist hsub
    simp only [List.pairwise_cons, List.mem_singleton, forall_eq, List.not_mem_nil,
      false_implies, implies_true, List.Pairwise.nil, and_true] at this
    have hprio := this.2 hblock.symm
    simp [streamPriority, hj, ht] at hprio

/-- One commitment confirmation, one deposit and one join of block 5 are
replayed in merge order, and the replay applies the whole merged list. -/
theorem playback_order_witness :
    ∃ applied : List Event, applied.Pairwise MergeOrdered ∧
      mergeEventLists (mergeEventLists [blockCreatedEvent 5 1] [transferEvent 5 10])
        [joinEvent 5 [7]] = applied ∧
      ¬ List.Sublist [transferEvent 5 10, joinEvent 5 [7]] applied := by
  obtain ⟨applied, rest, calls, h1, _, _, _, _, h6, h7, h8⟩ :=
    playback_order mergeEnv listPlasma ⟨sampleState, listPlasma.create [] 0⟩ 5 10
      [blockCreatedEvent 5 1] [transferEvent 5 10] [joinEvent 5 [7]] rfl rfl rfl rfl
      (by simp [blockCreatedEvent]) (by simp [transferEvent]) (by simp [joinEvent])
      (by simp) (by simp) (by simp)
  have hrest : rest = [] := by
    refine h6 ⟨sampleState, ⟨[7], 10, [1]⟩⟩ ?_
    simp [playback, playbackLoop, playbackEvent, Outcome.andThen, await, mergeEnv, quietEnv,
      mergeEventLists, List.merge, mergeKeyLE, streamPriority, listPlasma, blockCreatedEvent,
      transferEvent, joinEvent]
  subst hrest
  exact ⟨applied, h7, by simpa using h1, h8 _ _ rfl rfl rfl⟩

/-! ## Theorems: commitment tree and ledger -/

theorem nextLevel_length {H : Type} (nodeHash : H → H → H) :
    ∀ l : List H, (nextLevel nodeHash l).length = (l.length + 1) / 2
  | [] => by simp [nextLevel]
  | [_] => by simp [nextLevel]
  | _ :: _ :: rest => by
    simp only [nextLevel, List.length_cons, nextLevel_length nodeHash rest]
    omega

/-- The node above position `i` is the combination of the node at `i` with its
sibling. -/
theorem nextLevel_getElem {H : Type} (nodeHash : H → H → H) :
    ∀ (l : List H) (i : Nat) (x : H), l[i]? = some x →
      ∃ step, siblingAt l i = some step ∧
        (nextLevel nodeHash l)[i / 2]? = some (combine nodeHash x step)
  | [], i, x, h => by simp at h
  | [a], 0, x, h => by
    simp at h
    subst h
    exact ⟨(a, false), rfl, by simp [nextLevel, combine]⟩
  | [a], i + 1, x, h => by simp at h
  | a :: b :: rest, 0, x, h => by
    simp at h
    subst h
    exact ⟨(b, false), rfl, by simp [nextLevel, combine]⟩
  | a :: b :: rest, 1, x, h => by
    simp at h
    subst h
    exact ⟨(a, true), rfl, by simp [nextLevel, combine]⟩
  | a :: b :: rest, i + 2, x, h => by
    have h1 : rest[i]? = some x := by simpa using h
    obtain ⟨step, hs, hn⟩ := nextLevel_getElem nodeHash rest i x h1
    refine ⟨step, by simpa [siblingAt] using hs, ?_⟩
    have : (i + 2) / 2 = i / 2 + 1 := by omega
    rw [this]
    simpa [nextLevel] using hn

/-- For every leaf list, every position in it and enough fuel, the root
exists and the proof of that position recomputes it. -/
theorem recompute_computeProofAux {H : Type} (nodeHash : H → H → H) :
    ∀ (fuel : Nat) (l : List H) (i : Nat) (x : H), l.length ≤ fuel → l[i]? = some x →
      ∃ r, computeRootAux nodeHash fuel l = some r ∧
        recompute nodeHash x (computeProofAux nodeHash fuel l i) = r
  | _, [], i, x, _, h => by simp at h
  | fuel, [a], i, x, _, h => by
    cases i with
    | zero =>
      simp at h
      subst h
      cases fuel <;> exact ⟨_, rfl, rfl⟩
    | succ k => simp at h
  | 0, a :: b :: rest, i, x, hf, _ => by simp at hf
  | fuel + 1, a :: b :: rest, i, x, hf, h => by
    obtain ⟨step, hs, hn⟩ := nextLevel_getElem nodeHash (a :: b :: rest) i x h
    have hlen : (nextLevel nodeHash (a :: b :: rest)).length ≤ fuel := by
      rw [nextLevel_length]
      simp only [List.length_cons] at hf ⊢
      omega
    obtain ⟨r, hr, hrec⟩ := recompute_computeProofAux nodeHash fuel
      (nextLevel nodeHash (a :: b :: rest)) (i / 2) _ hlen hn
    refine ⟨r, by simpa [computeRootAux] using hr, ?_⟩
    simp only [computeProofAux, hs, recompute, List.foldl_cons]
    exact hrec

/-- The root is the only node of some level `k`, and the sibling hashes of
the proof are those of the path through these `k` levels. -/
theorem computeProofAux_path {H : Type} (nodeHash : H → H → H) :
    ∀ (fuel : Nat) (l : List H) (i : Nat) (x r : H), l[i]? = some x →
      computeRootAux nodeHash fuel l = some r →
      ∃ k, (nextLevel nodeHash)^[k] l = [r] ∧
        (computeProofAux nodeHash fuel l i).map Prod.fst = pathHashes nodeHash k l i
  | _, [], i, x, r, h, _ => by simp at h
  | fuel, [a], i, x, r, _, hr => by
    have : a = r := by cases fuel <;> simpa [computeRootAux] using hr
    subst this
    refine ⟨0, rfl, ?_⟩
    cases fuel <;> simp [computeProofAux, pathHashes]
  | 0, a :: b :: rest, i, x, r, _, hr => by simp [computeRootAux] at hr
  | fuel + 1, a :: b :: rest, i, x, r, h, hr => by
    obtain ⟨step, hs, hn⟩ := nextLevel_getElem nodeHash (a :: b :: rest) i x h
    obtain ⟨k, hk, hp⟩ := computeProofAux_path nodeHash fuel
      (nextLevel nodeHash (a :: b :: rest)) (i / 2) _ r hn (by simpa [computeRootAux] using hr)
    refine ⟨k + 1, by rw [Function.iterate_succ_apply]; exact hk, ?_⟩
    simp only [computeProofAux, pathHashes, hs, List.map_cons, hp]

/-- Going one level higher appends the sibling hash found at that level. -/
theorem pathHashes_succ {H : Type} (nodeHash : H → H → H) :
    ∀ (k : Nat) (l : List H) (i : Nat) (x : H), l[i]? = some x →
      ∃ step, siblingAt ((nextLevel nodeHash)^[k] l) (i / 2 ^ k) = some step ∧
        pathHashes nodeHash (k + 1) l i = pathHashes nodeHash k l i ++ [step.1]
  | 0, l, i, x, h => by
    obtain ⟨step, hs, _⟩ := nextLevel_getElem nodeHash l i x h
    exact ⟨step, by simpa using hs, by simp [pathHashes, hs]⟩
  | k + 1, l, i, x, h => by
    obtain ⟨step0, hs0, hn⟩ := nextLevel_getElem nodeHash l i x h
    obtain ⟨step, hs, hp⟩ := pathHashes_succ nodeHash k (nextLevel nodeHash l) (i / 2) _ hn
    refine ⟨step, ?_, ?_⟩
    · rw [Function.iterate_succ_apply]
      have : i / 2 ^ (k + 1) = i / 2 / 2 ^ k := by
        rw [Nat.div_div_eq_div_mul, pow_succ, Nat.mul_comm]
      rw [this]
      exact hs
    · rw [pathHashes, hs0]
      simp only
      rw [hp]
      simp [pathHashes, hs0]

theorem nextLevel_getElem_inv {H : Type} (nodeHash : H → H → H) :
    ∀ (l : List H) (j : Nat) (y : H), (nextLevel nodeHash l)[j]? = some y →
      ∃ a, l[2 * j]? = some a ∧ y = nodeHash a ((l[2 * j + 1]?).getD a)
  | [], j, y, h => by simp [nextLevel] at h
  | [a], 0, y, h => by
    simp [nextLevel] at h
    exact ⟨a, rfl, by simp [h]⟩
  | [a], j + 1, y, h => by simp [nextLevel] at h
  | a :: b :: rest, 0, y, h => by
    simp [nextLevel] at h
    exact ⟨a, rfl, by simp [h]⟩
  | a :: b :: rest, j + 1, y, h => by
    have h1 : (nextLevel nodeHash rest)[j]? = some y := by simpa [nextLevel] using h
    obtain ⟨c, hc, hy⟩ := nextLevel_getElem_inv nodeHash rest j y h1
    have e1 : 2 * (j + 1) = 2 * j + 1 + 1 := by omega
    have e2 : 2 * (j + 1) + 1 = 2 * j + 1 + 1 + 1 := by omega
    refine ⟨c, ?_, ?_⟩
    · rw [e1]; simpa using hc
    · rw [e2]; simpa using hy

theorem siblingAt_even {H : Type} :
    ∀ (l : List H) (j : Nat) (a : H), l[2 * j]? = some a →
      siblingAt l (2 * j) = some ((l[2 * j + 1]?).getD a, false)
  | [], j, a, h => by simp at h
  | [b], 0, a, h => by
    simp at h
    simp [siblingAt, h]
  | [b], j + 1, a, h => by
    have e1 : 2 * (j + 1) = 2 * j + 1 + 1 := by omega
    rw [e1] at h
    simp at h
  | b :: c :: rest, 0, a, h => by simp [siblingAt]
  | b :: c :: rest, j + 1, a, h => by
    have e1 : 2 * (j + 1) = 2 * j + 2 := by omega
    have e2 : 2 * (j + 1) + 1 = 2 * j + 1 + 1 + 1 := by omega
    rw [e1] at h ⊢
    have h1 : rest[2 * j]? = some a := by simpa using h
    rw [siblingAt, siblingAt_even rest j a h1]
    simp

theorem siblingAt_odd {H : Type} :
    ∀ (l : List H) (j : Nat) (a b : H), l[2 * j]? = some a → l[2 * j + 1]? = some b →
      siblingAt l (2 * j + 1) = some (a, true)
  | [], j, a, b, h, _ => by simp at h
  | [c], j, a, b, _, h2 => by simp at h2
  | c :: d :: rest, 0, a, b, h, _ => by
    simp at h
    simp [siblingAt, h]
  | c :: d :: rest, j + 1, a, b, h, h2 => by
    have e1 : 2 * (j + 1) = 2 * j + 1 + 1 := by omega
    have e2 : 2 * (j + 1) + 1 = 2 * j + 1 + 2 := by omega
    rw [e1] at h
    rw [e2] at h2 ⊢
    have h1 : rest[2 * j]? = some a := by simpa using h
    have h3 : rest[2 * j + 1]? = some b := by simpa using h2
    rw [siblingAt, siblingAt_odd rest j a b h1 h3]

theorem recompute_concat {H : Type} (nodeHash : H → H → H) (x : H) (q : List (H × Bool))
    (st : H × Bool) :
    recompute nodeHash x (q ++ [st]) = combine nodeHash (recompute nodeHash x q) st := by
  simp [recompute, List.foldl_append]

/-- With collision-free hashing, a leaf hash and a proof that recompute a node
of level `k` pin the leaf down to a position below that node, and the proof's
sibling hashes to those of the path from that position. -/
theorem recompute_level {H : Type} (leafHash : Address → Nat → H) (nodeHash : H → H → H)
    (hnode : ∀ x y x1 y1, nodeHash x y = nodeHash x1 y1 → x = x1 ∧ y = y1)
    (hsep : ∀ a e x y, leafHash a e ≠ nodeHash x y)
    (l : List H) (hl : ∀ x ∈ l, ∃ a e, x = leafHash a e) :
    ∀ (k j : Nat) (q : List (H × Bool)) (a e : Nat),
      ((nextLevel nodeHash)^[k] l)[j]? = some (recompute nodeHash (leafHash a e) q) →
      ∃ i, l[i]? = some (leafHash a e) ∧ j = i / 2 ^ k ∧
        q.map Prod.fst = pathHashes nodeHash k l i := by
  intro k
  induction k with
  | zero =>
    intro j q a e h
    rcases List.eq_nil_or_concat q with hq | ⟨q0, st, hq⟩
    · subst hq
      exact ⟨j, by simpa [recompute] using h, by simp, by simp [pathHashes]⟩
    · exfalso
      rw [List.concat_eq_append] at hq
      subst hq
      rw [recompute_concat] at h
      simp only [Function.iterate_zero, id_eq] at h
      obtain ⟨a1, e1, hx⟩ := hl _ (List.getElem?_mem h)
      unfold combine at hx
      split_ifs at hx
      · exact hsep _ _ _ _ hx.symm
      · exact hsep _ _ _ _ hx.symm
  | succ k ih =>
    intro j q a e h
    rw [Function.iterate_succ_apply'] at h
    obtain ⟨A, hA, hy⟩ := nextLevel_getElem_inv nodeHash _ j _ h
    rcases List.eq_nil_or_concat q with hq | ⟨q0, st, hq⟩
    · exfalso
      subst hq
      exact hsep _ _ _ _ hy
    · rw [List.concat_eq_append] at hq
      subst hq
      rw [recompute_concat] at hy
      have hdiv : ∀ i, i / 2 ^ (k + 1) = i / 2 ^ k / 2 := by
        intro i
        rw [Nat.div_div_eq_div_mul, pow_succ]
      by_cases hflag : st.2 = true
      · -- the sibling stands on the left: the running hash is the right child
        simp only [combine, hflag, if_true] at hy
        obtain ⟨hst, hB⟩ := hnode _ _ _ _ hy
        cases hright : ((nextLevel nodeHash)^[k] l)[2 * j + 1]? with
        | some B =>
          rw [hright] at hB
          simp only [Option.getD_some] at hB
          obtain ⟨i, hi, hj, hq0⟩ := ih (2 * j + 1) q0 a e (by rw [hright, hB])
          obtain ⟨step, hs, hp⟩ := pathHashes_succ nodeHash k l i _ hi
          rw [← hj, siblingAt_odd _ j A B hA hright] at hs
          cases hs
          refine ⟨i, hi, by rw [hdiv, ← hj]; omega, ?_⟩
          rw [hp, List.map_append, hq0]
          simp [hst]
        | none =>
          rw [hright] at hB
          simp only [Option.getD_none] at hB
          obtain ⟨i, hi, hj, hq0⟩ := ih (2 * j) q0 a e (by rw [hA, hB])
          obtain ⟨step, hs, hp⟩ := pathHashes_succ nodeHash k l i _ hi
          rw [← hj, siblingAt_even _ j A hA, hright] at hs
          cases hs
          refine ⟨i, hi, by rw [hdiv, ← hj]; omega, ?_⟩
          rw [hp, List.map_append, hq0]
          simp [hst]
      · -- the sibling stands on the right: the running hash is the left child
        simp only [combine, hflag] at hy
        obtain ⟨hA2, hst⟩ := hnode _ _ _ _ hy
        obtain ⟨i, hi, hj, hq0⟩ := ih (2 * j) q0 a e (by rw [hA, hA2])
        obtain ⟨step, hs, hp⟩ := pathHashes_succ nodeHash k l i _ hi
        rw [← hj, siblingAt_even _ j A hA] at hs
        cases hs
        refine ⟨i, hi, by rw [hdiv, ← hj]; omega, ?_⟩
        rw [hp, List.map_append, hq0]
        simp [hst]

theorem addMember_nodup (L : Ledger) (a : Address)
    (h : (L.members.map (fun m => m.address)).Nodup) :
    ((addMember L a).members.map (fun m => m.address)).Nodup := by
  unfold addMember
  split_ifs with hmem
  · have : (L.members.map
        (fun m => if m.address = a then { m with active := true } else m)).map
        (fun m => m.address) = L.members.map (fun m => m.address) := by
      rw [List.map_map]
      refine List.map_congr_left (fun m _ => ?_)
      simp only [Function.comp]
      split_ifs <;> rfl
    simpa [this] using h
  · have hperm := (List.perm_orderedInsert (fun (x y : Member) => x.address ≤ y.address)
      ⟨a, 0, true⟩ L.members).map (fun m => m.address)
    exact hperm.nodup_iff.mpr (by simpa using ⟨by simpa using hmem, h⟩)

theorem addRevenue_addresses (L : Ledger) (amount : Nat) :
    (addRevenue L amount).members.map (fun m => m.address)
      = L.members.map (fun m => m.address) := by
  unfold addRevenue
  simp only
  split_ifs
  · rfl
  · rw [List.map_map]
    refine List.map_congr_left (fun m _ => ?_)
    simp only [Function.comp]
    split_ifs <;> rfl

theorem build_nodup (ops : List LedgerOp) :
    ((build ops).members.map (fun m => m.address)).Nodup := by
  unfold build
  have : ∀ (L : Ledger), (L.members.map (fun m => m.address)).Nodup →
      ((ops.foldl applyOp L).members.map (fun m => m.address)).Nodup := by
    induction ops with
    | nil => intro L h; exact h
    | cons op rest ih =>
      intro L h
      refine ih _ ?_
      cases op with
      | addMember a => exact addMember_nodup L a h
      | addRevenue amount => simpa [applyOp, addRevenue_addresses] using h
  exact this _ (by simp [Ledger.empty])

theorem member_index (L : Ledger) (h : (L.members.map (fun m => m.address)).Nodup)
    (i : Nat) (m : Member) (hi : L.members[i]? = some m) :
    (L.members.map (fun m => m.address)).indexOf m.address = i := by
  obtain ⟨hlt, hget⟩ := List.getElem?_eq_some.mp hi
  have hlt2 : i < (L.members.map (fun m => m.address)).length := by simpa using hlt
  have := List.indexOf_getElem h i hlt2
  simpa [hget] using this

/-- C5 (as amended): for every ledger built by `addMember` and `addRevenue`
calls and every member `M` of it, `getProof M` returns a proof and
`getRootHash` a digest such that the proof verifies `M`'s current earnings
against the digest, for any hash function; and when the hash function is
free of collisions, verification against that digest rejects `M`'s claim for
every other amount, whatever the proof, and for every proof whose sibling
hashes are not those of the proof produced for `M`. -/
theorem withdrawal_proof {H : Type} [DecidableEq H] (leafHash : Address → Nat → H)
    (nodeHash : H → H → H) (ops : List LedgerOp) (M : Address) (m : Member)
    (hm : getMember (build ops) M = some m) :
    ∃ proof root,
      getProof leafHash nodeHash (build ops) M = .ok proof ∧
      getRootHash leafHash nodeHash (build ops) = some root ∧
      verify nodeHash (leafHash M m.earnings) proof root = true ∧
      ((∀ a e a1 e1, leafHash a e = leafHash a1 e1 → a = a1 ∧ e = e1) →
        (∀ x y x1 y1, nodeHash x y = nodeHash x1 y1 → x = x1 ∧ y = y1) →
        (∀ a e x y, leafHash a e ≠ nodeHash x y) →
        ∀ (amount : Nat) (p : List (H × Bool)),
          (amount ≠ m.earnings ∨ p.map Prod.fst ≠ proof.map Prod.fst) →
          verify nodeHash (leafHash M amount) p root = false) := by
  have hn := build_nodup ops
  have hmem : m ∈ (build ops).members := List.mem_of_find?_eq_some hm
  have haddr : m.address = M := by
    have := List.find?_some hm
    simpa using this
  obtain ⟨i, hi⟩ := List.mem_iff_getElem?.mp hmem
  have hidx : ((build ops).members.map (fun m => m.address)).indexOf M = i := by
    rw [← haddr]
    exact member_index _ hn i m hi
  have hin : M ∈ (build ops).members.map (fun m => m.address) :=
    List.mem_map.mpr ⟨m, hmem, haddr⟩
  have hleafAt : (leaves leafHash (build ops))[i]? = some (leafHash M m.earnings) := by
    simp [leaves, List.getElem?_map, hi, haddr]
  obtain ⟨r, hr, hrec⟩ := recompute_computeProofAux nodeHash _ _ i _ (le_refl _) hleafAt
  refine ⟨computeProof nodeHash (leaves leafHash (build ops)) i, r, ?_, hr, ?_, ?_⟩
  · simp [getProof, hin, hidx]
  · simpa [verify, computeProof] using hrec
  · intro hleaf hnode hsep amount p hbad
    by_contra hv
    have hv2 : recompute nodeHash (leafHash M amount) p = r := by
      simpa [verify] using hv
    obtain ⟨k, hk, hpath⟩ := computeProofAux_path nodeHash _ _ i _ r hleafAt hr
    have hlevel : ((nextLevel nodeHash)^[k] (leaves leafHash (build ops)))[0]?
        = some (recompute nodeHash (leafHash M amount) p) := by
      rw [hk, hv2]
      rfl
    have hl : ∀ x ∈ leaves leafHash (build ops), ∃ a e, x = leafHash a e := by
      intro x hx
      obtain ⟨m1, _, h1⟩ := List.mem_map.mp hx
      exact ⟨m1.address, m1.earnings, h1.symm⟩
    obtain ⟨i1, hi1, _, hp⟩ := recompute_level leafHash nodeHash hnode hsep _ hl k 0 p M amount
      hlevel
    have hi1b : ∃ m1, (build ops).members[i1]? = some m1 ∧
        leafHash m1.address m1.earnings = leafHash M amount := by
      simpa [leaves, List.getElem?_map] using hi1
    obtain ⟨m1, hm1, hm1leaf⟩ := hi1b
    obtain ⟨ha1, he1⟩ := hleaf _ _ _ _ hm1leaf
    have hidx1 := member_index _ hn i1 m1 hm1
    rw [ha1, hidx] at hidx1
    subst hidx1
    rw [hi] at hm1
    cases hm1
    rcases hbad with hb | hb
    · exact hb he1.symm
    · exact hb (by rw [hp]; exact hpath.symm)

/-- C5 (as stated) fails: in the ledger of `sampleOps` member 3 is the last of
three leaves, so it is its own sibling at the lowest level; the proof that
`getProof` returns for it, with the orientation flag of that step turned
round, is another proof, not produced for member 3, and it is accepted for
the earnings 666 all the same. -/
theorem withdrawal_proof_counterexample :
    getProof pairLeafHash pairNodeHash (build sampleOps) 3 =
      .ok [(887118, false), (1573951369141, true)] ∧
    getRootHash pairLeafHash pairNodeHash (build sampleOps) =
      some 4954701676225828051104365 ∧
    [((887118 : Nat), true), (1573951369141, true)] ≠
      [(887118, false), (1573951369141, true)] ∧
    verify pairNodeHash (pairLeafHash 3 666) [(887118, true), (1573951369141, true)]
      4954701676225828051104365 = true := by
  refine ⟨by rfl, by rfl, by decide, by decide⟩

/-- In the ledger of `sampleOps`, member 1 has earned 666; its proof verifies
666 against the digest and does not verify 667. -/
theorem withdrawal_proof_witness :
    getMember (build sampleOps) 1 = some ⟨1, 666, true⟩ ∧
    ∃ proof root,
      getProof pairLeafHash pairNodeHash (build sampleOps) 1 = .ok proof ∧
      getRootHash pairLeafHash pairNodeHash (build sampleOps) = some root ∧
      verify pairNodeHash (pairLeafHash 1 666) proof root = true ∧
      verify pairNodeHash (pairLeafHash 1 667) proof root = false := by
  have hm : getMember (build sampleOps) 1 = some ⟨1, 666, true⟩ := by
    simp [getMember, build, sampleOps, applyOp, addMember, addRevenue, Ledger.empty,
      List.orderedInsert]
  refine ⟨hm, ?_⟩
  obtain ⟨proof, root, h1, h2, h3, h4⟩ :=
    withdrawal_proof pairLeafHash pairNodeHash sampleOps 1 ⟨1, 666, true⟩ hm
  refine ⟨proof, root, h1, h2, h3, h4 ?_ ?_ ?_ 667 proof (Or.inl (by decide))⟩
  · intro a e a1 e1 h
    have : Nat.pair a e = Nat.pair a1 e1 := by
      unfold pairLeafHash at h
      omega
    exact Nat.pair_eq_pair.mp this
  · intro x y x1 y1 h
    have : Nat.pair x y = Nat.pair x1 y1 := by
      unfold pairNodeHash at h
      omega
    exact Nat.pair_eq_pair.mp this
  · intro a e x y h
    unfold pairLeafHash pairNodeHash at h
    omega

end Monoplasma
